import Mathlib

/-!
# MeshPolygonization: optimisation formulator and planarity estimator

Shallow embedding of `src/src/Polygonization/Optimization.h` (`optimize`) and
`src/src/Polygonization/Planarity.cpp` (`Planarity::compute`,
`Planarity::compute_k_ring_planarity`, `Planarity::planarity_to_faces`).

Conventions of the embedding.
* `double` arithmetic is exact rational arithmetic (`ℚ`); division is the total
  division of `ℚ`. Where rounding or a division by zero decides a statement,
  the lines concerned are also given in binary64 (`Double`, `round_finite`):
  `total_faces_double`, `coeff_data_fitting_double`, `data_fitting_term_double`
  and `Planarity.face_score_double`.
* `std::size_t` counters never wrap in the code below and are `Nat`.
* The narrowing cast `(int)container.size()` of the two OpenMP loops is kept:
  `to_int` is the two's-complement reading of the low 32 bits.
* A property map is a total function on element identities; a write is
  `Function.update`.
* The geometry kernel (k-ring traversal, vertices around a face, plane fitting,
  bounding box) and the solver are not part of the sources; they enter as
  fields of `Mesh` or as parameters.
-/

namespace MeshPolygonization

/-! ## Data model -/

/-- Face identity (`Mesh::Face_index`). -/
abbrev Face := Nat

/-- Vertex identity (`Mesh::Vertex_index`). -/
abbrev Vertex := Nat

/-- Halfedge identity (`Mesh::Halfedge_index`). -/
abbrev Halfedge := Nat

/-- A 3D point with exact coordinates. -/
structure Point_3 where
  x : ℚ
  y : ℚ
  z : ℚ
deriving DecidableEq

/-- Axis-aligned bounding box as returned by `CGAL::Polygon_mesh_processing::bbox`. -/
structure Bbox_3 where
  xmin : ℚ
  xmax : ℚ
  ymin : ℚ
  ymax : ℚ
  zmin : ℚ
  zmax : ℚ

/-- An intersection edge; only its fan of candidate faces is read by `optimize`. -/
structure Plane_intersection where
  fan : List Face

/-- The mesh as the two components see it: element ranges in iteration order,
kernel queries, and the attribute maps attached to it. The maps `optimize`
fetches with `.value()` are present; the two planarity maps are optional
because `Planarity::compute` is what creates them. -/
structure Mesh where
  /-- The range `mesh->vertices()`, in iteration order. -/
  vertices : List Vertex
  /-- The range `mesh->faces()`, in iteration order. -/
  faces : List Face
  /-- A mesh lists every vertex once. -/
  vertices_nodup : vertices.Nodup
  /-- A mesh lists every face once. -/
  faces_nodup : faces.Nodup
  /-- The point map `mesh->points()`. -/
  points : Vertex → Point_3
  /-- Kernel query `vertex_around_face(mesh, face)` of `Utils.h`. -/
  vertex_around_face : Face → List Vertex
  /-- Kernel query `get_k_ring_vertices(mesh, vertex, k)` of `Utils.h`, a
  `std::set` listed in its iteration order. -/
  get_k_ring_vertices : Vertex → Nat → List Vertex
  /-- Kernel query `CGAL::Polygon_mesh_processing::bbox(*mesh)`. -/
  bbox : Bbox_3
  /-- Map `"f:index"` as it stands before `optimize` runs. -/
  f_index : Face → Nat
  /-- Map `"f:supporting_face_num"`. -/
  supporting_face_num : Face → Nat
  /-- Map `"f:covered_area"`. -/
  covered_area : Face → ℚ
  /-- Map `"f:area"`. -/
  area : Face → ℚ
  /-- Map `"v:planarity"`, when it exists. -/
  v_planarity : Option (Vertex → ℚ)
  /-- Map `"f:planarity"`, when it exists. -/
  f_planarity : Option (Face → ℚ)
  /-- Map `"f:chart"`, a signed 32-bit value per face; -1 before segmentation. -/
  chart : Face → Int := fun _ => -1
  /-- Kernel query `mesh->halfedge(face)`: a halfedge of the face. -/
  halfedge : Face → Halfedge := fun f => f
  /-- Kernel query `halfedges_around_face(h, *mesh)`: the halfedges of the face
  of `h`, in circulation order. -/
  halfedges_around_face : Halfedge → List Halfedge := fun _ => []
  /-- Kernel query `mesh->opposite(h)`. -/
  opposite : Halfedge → Halfedge := fun h => h
  /-- Kernel query `mesh->face(h)`; no face stands for `mesh->null_face()`. -/
  face : Halfedge → Option Face := fun _ => none
  /-- Kernel query `mesh->source(h)`. -/
  source : Halfedge → Vertex := fun _ => 0
  /-- Kernel query `mesh->target(h)`. -/
  target : Halfedge → Vertex := fun _ => 0
  /-- Kernel query `face_around_vertex(mesh, vertex)` of `Utils.h`. -/
  face_around_vertex : Vertex → List Face := fun _ => []

/-- The call `mesh->number_of_faces()`. -/
def Mesh.number_of_faces (mesh : Mesh) : Nat := mesh.faces.length

/-- The call `mesh->number_of_vertices()`. -/
def Mesh.number_of_vertices (mesh : Mesh) : Nat := mesh.vertices.length

/-- The call `add_property_map<K, V>(name, default).first`: the existing map
when there is one, otherwise a fresh map filled with the default. -/
def add_property_map {K V : Type} (existing : Option (K → V)) (dflt : V) : K → V :=
  existing.getD (fun _ => dflt)

/-! ## Linear program (`solver/linear_program.h`, consumed interface) -/

/-- Variable kinds of the linear program. -/
inductive VariableType where
  | CONTINUOUS
  | INTEGER
  | BINARY
deriving DecidableEq, Repr

/-- Bound kinds of a constraint. -/
inductive BoundType where
  | FIXED
  | LOWER
  | UPPER
  | DOUBLE
  | FREE
deriving DecidableEq, Repr

/-- Optimisation sense of the objective. -/
inductive Sense where
  | MINIMIZE
  | MAXIMIZE
  | UNDEFINED
deriving DecidableEq, Repr

/-- Solver back ends. -/
inductive SolverName where
  | GUROBI
  | SCIP
deriving DecidableEq, Repr

/-- Sparse coefficient table of a linear expression: variable index ↦ coefficient. -/
abbrev Coefficients := List (Nat × ℚ)

/-- Modelled from the spec: `LinearExpression::add_coefficient(var_index, coeff)`
of the solver interface, which is not among the sources. A repeated index
accumulates; a new index is inserted. -/
def add_coefficient : Coefficients → Nat → ℚ → Coefficients
  | [], i, c => [(i, c)]
  | (j, d) :: rest, i, c =>
    if j = i then (j, d + c) :: rest else (j, d) :: add_coefficient rest i c

/-- Net coefficient the table holds for variable `i` (zero when absent). -/
def coefficient : Coefficients → Nat → ℚ
  | [], _ => 0
  | (j, d) :: rest, i => if j = i then d else coefficient rest i

/-- Value of the linear expression under the assignment `x`. -/
def evaluate : Coefficients → (Nat → ℚ) → ℚ
  | [], _ => 0
  | (j, d) :: rest, x => d * x j + evaluate rest x

/-- A constraint `lower ≤ expr ≤ upper` with its bound kind. -/
structure LinearConstraint where
  bound_type : BoundType
  lower : ℚ
  upper : ℚ
  coefficients : Coefficients

/-- The objective: a sense and a linear expression. -/
structure LinearObjective where
  sense : Sense
  coefficients : Coefficients

/-- The program under construction: variables (by kind), objective, constraints
in creation order. -/
structure LinearProgram where
  variables_ : List VariableType
  objective : LinearObjective
  constraints : List LinearConstraint

/-- Modelled from the spec: `LinearProgram::create_n_variables(n)` of the solver
interface, which is not among the sources: `n` fresh variables are appended,
continuous until their kind is set. -/
def create_n_variables (n : Nat) : List VariableType :=
  List.replicate n VariableType.CONTINUOUS

/-- Modelled from the spec: `Variable::set_variable_type(t)` of the solver
interface, applied to the variable at position `i`. -/
def set_variable_type (vars : List VariableType) (i : Nat) (t : VariableType) :
    List VariableType :=
  vars.set i t

/-- Modelled from the spec: `LinearProgram::create_constraint(bound_type, lb, ub)`
of the solver interface: a new constraint with the given bounds and an empty
expression. -/
def create_constraint (bt : BoundType) (lb ub : ℚ) : LinearConstraint :=
  { bound_type := bt, lower := lb, upper := ub, coefficients := [] }

/-- Whether the assignment `x` satisfies the constraint, by bound kind. -/
def LinearConstraint.satisfied (c : LinearConstraint) (x : Nat → ℚ) : Prop :=
  match c.bound_type with
  | BoundType.FIXED => evaluate c.coefficients x = c.lower
  | BoundType.LOWER => c.lower ≤ evaluate c.coefficients x
  | BoundType.UPPER => evaluate c.coefficients x ≤ c.upper
  | BoundType.DOUBLE => c.lower ≤ evaluate c.coefficients x ∧ evaluate c.coefficients x ≤ c.upper
  | BoundType.FREE => True

instance (c : LinearConstraint) (x : Nat → ℚ) : Decidable (c.satisfied x) := by
  unfold LinearConstraint.satisfied
  cases c.bound_type <;> exact inferInstance

/-- The assignment `x` gives 0 or 1 to each of the first `n` variables. -/
def is_binary_assignment (n : Nat) (x : Nat → ℚ) : Prop :=
  ∀ i, i < n → x i = 0 ∨ x i = 1

instance (n : Nat) (x : Nat → ℚ) : Decidable (is_binary_assignment n x) := by
  unfold is_binary_assignment
  exact inferInstance

/-- The assignment `x` satisfies every constraint of the program. -/
def LinearProgram.feasible (p : LinearProgram) (x : Nat → ℚ) : Prop :=
  ∀ c ∈ p.constraints, c.satisfied x

instance (p : LinearProgram) (x : Nat → ℚ) : Decidable (p.feasible x) := by
  unfold LinearProgram.feasible
  exact inferInstance

/-! ## `optimize` (Optimization.h) -/

/-- Weight of the data-fitting term (line 38). -/
def wt_fitting : ℚ := 43 / 100

/-- Weight of the coverage term (line 39). -/
def wt_coverage : ℚ := 27 / 100

/-- Weight of the complexity term (line 40). -/
def wt_complexity : ℚ := 30 / 100

/-- State of the first loop over the faces (lines 43-51). -/
structure FaceLoopState where
  total_faces : ℚ
  total_area : ℚ
  face_indices : Face → Nat
  idx : Nat

/-- One iteration of lines 46-51. -/
def face_loop_step (mesh : Mesh) (s : FaceLoopState) (f : Face) : FaceLoopState :=
  { total_faces := s.total_faces + (mesh.supporting_face_num f : ℚ)
    total_area := s.total_area + mesh.area f
    face_indices := Function.update s.face_indices f s.idx
    idx := s.idx + 1 }

/-- Lines 43-51: totals and the face index map written by `optimize`. -/
def face_loop (mesh : Mesh) : FaceLoopState :=
  mesh.faces.foldl (face_loop_step mesh)
    { total_faces := 0, total_area := 0, face_indices := mesh.f_index, idx := 0 }

/-- The map `face_indices` after line 51. -/
def face_indices (mesh : Mesh) : Face → Nat := (face_loop mesh).face_indices

/-- The value `total_faces` after line 51. -/
def total_faces (mesh : Mesh) : ℚ := (face_loop mesh).total_faces

/-- Line 60: `num_faces + num_edges + num_edges`. -/
def total_variables (mesh : Mesh) (edges : List Plane_intersection) : Nat :=
  mesh.number_of_faces + edges.length + edges.length

/-- Lines 64-68: create the variables and mark each one binary. -/
def binary_variables (n : Nat) : List VariableType :=
  (List.range n).foldl (fun vars i => set_variable_type vars i VariableType.BINARY)
    (create_n_variables n)

/-- Lines 71-75: surface area of the bounding box. -/
def box_area (mesh : Mesh) : ℚ :=
  let box := mesh.bbox
  let dx := box.xmax - box.xmin
  let dy := box.ymax - box.ymin
  let dz := box.zmax - box.zmin
  2 * (dx * dy + dy * dz + dz * dx)

/-- Line 78, as an exact quotient. When `total_faces` is 0 the code divides by
0.0 (`coeff_data_fitting_double` has that case), while this quotient is 0. -/
def coeff_data_fitting (mesh : Mesh) : ℚ := wt_fitting / total_faces mesh

/-- Line 79. -/
def coeff_coverage (mesh : Mesh) : ℚ := wt_coverage / box_area mesh

/-- Line 80: the divisor is `edges->size()`. -/
def coeff_complexity (edges : List Plane_intersection) : ℚ :=
  wt_complexity / (edges.length : ℚ)

/-- One iteration of lines 85-95: the two face terms go to the face's variable. -/
def objective_face_step (mesh : Mesh) (obj : Coefficients) (f : Face) : Coefficients :=
  let var_idx := face_indices mesh f
  let num : ℚ := (mesh.supporting_face_num f : ℚ)
  let obj1 := add_coefficient obj var_idx (-(coeff_data_fitting mesh) * num)
  let uncovered_area := mesh.area f - mesh.covered_area f
  add_coefficient obj1 var_idx (coeff_coverage mesh * uncovered_area)

/-- Lines 85-95. -/
def objective_faces (mesh : Mesh) : Coefficients :=
  mesh.faces.foldl (objective_face_step mesh) []

/-- Lines 97-104: one iteration per intersection edge; `num_sharp_edges` is the
running counter, `remaining` the edges still to visit. -/
def objective_complexity (num_faces num_edges : Nat) (coeff : ℚ) :
    List Plane_intersection → Nat → Coefficients → Coefficients
  | [], _, obj => obj
  | _ :: remaining, num_sharp_edges, obj =>
    let var_idx := num_faces + num_edges + num_sharp_edges
    objective_complexity num_faces num_edges coeff remaining (num_sharp_edges + 1)
      (add_coefficient obj var_idx coeff)

/-- Lines 110-115: the fan's face variables enter the constraint with coefficient 1. -/
def fan_coefficients (fi : Face → Nat) (fan : List Face) (c : LinearConstraint) :
    LinearConstraint :=
  fan.foldl (fun c f => { c with coefficients := add_coefficient c.coefficients (fi f) 1 }) c

/-- Lines 109-123, the body of the constraint loop for one edge: a fixed
constraint with bounds 0 and 0 over the fan's face variables, and, when the fan
has at least two faces, the variable `num_faces + var_edge_used_idx` with
coefficient -2. -/
def edge_constraint (num_faces : Nat) (fi : Face → Nat) (e : Plane_intersection)
    (var_edge_used_idx : Nat) : LinearConstraint :=
  let c := fan_coefficients fi e.fan (create_constraint BoundType.FIXED 0 0)
  if 2 ≤ e.fan.length then
    let var_idx := num_faces + var_edge_used_idx
    { c with coefficients := add_coefficient c.coefficients var_idx (-2) }
  else
    c

/-- Line 122: the counter `var_edge_used_idx` after the body ran for edge `e`. -/
def next_edge_used_idx (e : Plane_intersection) (var_edge_used_idx : Nat) : Nat :=
  if 2 ≤ e.fan.length then var_edge_used_idx + 1 else var_edge_used_idx

/-- Lines 107-124: one constraint per intersection edge, in edge order;
`var_edge_used_idx` is the running counter of edges with at least two fan faces. -/
def edge_constraints (num_faces : Nat) (fi : Face → Nat) :
    List Plane_intersection → Nat → List LinearConstraint
  | [], _ => []
  | e :: remaining, var_edge_used_idx =>
    edge_constraint num_faces fi e var_edge_used_idx
      :: edge_constraints num_faces fi remaining (next_edge_used_idx e var_edge_used_idx)

/-- Lines 24-124: the program `optimize` hands to the solver. -/
def optimize_program (mesh : Mesh) (edges : List Plane_intersection) : LinearProgram :=
  let num_faces := mesh.number_of_faces
  let num_edges := edges.length
  { variables_ := binary_variables (total_variables mesh edges)
    objective :=
      { sense := Sense.MINIMIZE
        coefficients :=
          objective_complexity num_faces num_edges (coeff_complexity edges) edges 0
            (objective_faces mesh) }
    constraints := edge_constraints num_faces (face_indices mesh) edges 0 }

/-- The solver object `LinearProgramSolver`: `solve` reports success, and
`solution` is the vector it then holds. -/
structure LinearProgramSolver where
  solve : LinearProgram → SolverName → Bool
  solution : LinearProgram → SolverName → List ℚ

/-- Lines 23-135: `optimize`. The result vector `X` starts empty and is
overwritten with the solver's solution only when `solve` succeeds. -/
def optimize (solver : LinearProgramSolver) (mesh : Mesh) (edges : List Plane_intersection)
    (solver_name : SolverName) : List ℚ :=
  let program := optimize_program mesh edges
  let X : List ℚ := []
  if solver.solve program solver_name then solver.solution program solver_name else X

/-! ## `Planarity` (Planarity.cpp) -/

/-- The cast `(int)n` of a `std::size_t` value: its low 32 bits read in two's
complement. -/
def to_int (n : Nat) : Int :=
  if n % 2 ^ 32 < 2 ^ 31 then ((n % 2 ^ 32 : Nat) : Int) else ((n % 2 ^ 32 : Nat) : Int) - 2 ^ 32

/-- Number of iterations of `for (int i = 0; i < (int)size; ++i)`. -/
def loop_count (size : Nat) : Nat := (to_int size).toNat

/-- Lines 47-66: `Planarity::compute_k_ring_planarity`. The fitting primitive
`linear_least_squares_fitting_3` of the geometry kernel is a parameter; it
receives the positions of the k-ring vertices in the set's iteration order. -/
def Planarity.compute_k_ring_planarity (linear_least_squares_fitting_3 : List Point_3 → ℚ)
    (mesh : Mesh) (vertex : Vertex) (k : Nat) : ℚ :=
  let vertices := mesh.get_k_ring_vertices vertex k
  let points := vertices.map mesh.points
  linear_least_squares_fitting_3 points

/-- Lines 86-93, the loop body for one face: the sum of the vertex scores
around the face divided by their number, both taken exactly;
`Planarity.face_score_double` has the same lines with the rounding of `double`. -/
def Planarity.face_score (mesh : Mesh) (v_planar : Vertex → ℚ) (face : Face) : ℚ :=
  let verts := mesh.vertex_around_face face
  let sum := verts.foldl (fun s v => s + v_planar v) 0
  sum / (verts.length : ℚ)

/-- Lines 69-94: `Planarity::planarity_to_faces`. The vertex map is fetched with
`.value()`, which fails when the map does not exist; the loop visits
`faces[i]` for `0 ≤ i < (int)faces.size()`. -/
def Planarity.planarity_to_faces (mesh : Mesh) : Option Mesh :=
  match mesh.v_planarity with
  | none => none
  | some v_planar =>
    let f_planar := add_property_map mesh.f_planarity 0
    let faces := mesh.faces
    let f_planar_out :=
      (faces.take (loop_count faces.length)).foldl
        (fun fp face => Function.update fp face (Planarity.face_score mesh v_planar face))
        f_planar
    some { mesh with f_planarity := some f_planar_out }

/-- Lines 27-40, the first pass of `Planarity::compute`: the vertex map is
created with the default -9999 (or reused when it exists) and the loop writes
the slot of `verts[i]` for `0 ≤ i < (int)verts.size()`. -/
def Planarity.vertex_pass (linear_least_squares_fitting_3 : List Point_3 → ℚ) (mesh : Mesh)
    (num_rings : Nat) : Vertex → ℚ :=
  let planarity := add_property_map mesh.v_planarity (-9999)
  let verts := mesh.vertices
  (verts.take (loop_count verts.length)).foldl
    (fun pm v => Function.update pm v
      (Planarity.compute_k_ring_planarity linear_least_squares_fitting_3 mesh v num_rings))
    planarity

/-- Lines 25-44: `Planarity::compute`: the first pass, then `planarity_to_faces`
on the mesh that carries the vertex map. -/
def Planarity.compute (linear_least_squares_fitting_3 : List Point_3 → ℚ) (mesh : Mesh)
    (num_rings : Nat) : Option Mesh :=
  let planarity := Planarity.vertex_pass linear_least_squares_fitting_3 mesh num_rings
  Planarity.planarity_to_faces { mesh with v_planarity := some planarity }

/-- Number of intersection edges in `edges` whose fan has at least two faces. -/
def num_qualifying (edges : List Plane_intersection) : Nat :=
  (edges.filter (fun e => decide (2 ≤ e.fan.length))).length

/-- The faces of `fan` whose selection variable is 1 under the assignment `x`. -/
def selected_faces (mesh : Mesh) (x : Nat → ℚ) (fan : List Face) : Finset Face :=
  fan.toFinset.filter (fun f => x (face_indices mesh f) = 1)

/-- Lines 88-94 for one face: the two terms `optimize` adds to the face's variable. -/
def face_terms (mesh : Mesh) (f : Face) : ℚ :=
  -(coeff_data_fitting mesh) * (mesh.supporting_face_num f : ℚ)
    + coeff_coverage mesh * (mesh.area f - mesh.covered_area f)

/-- The variable indices that received a coefficient in the table, in table order. -/
def keys (e : Coefficients) : List Nat := e.map Prod.fst

/-- Line 90 for one face: the data-fitting value added to the face's variable. -/
def data_fitting_term (mesh : Mesh) (f : Face) : ℚ :=
  -(coeff_data_fitting mesh) * (mesh.supporting_face_num f : ℚ)

/-- Lines 93-94 for one face: the coverage value added to the face's variable. -/
def coverage_term (mesh : Mesh) (f : Face) : ℚ :=
  coeff_coverage mesh * (mesh.area f - mesh.covered_area f)

/-- The assignment `x` with every variable of the second auxiliary block
`[num_faces + num_edges, num_faces + 2 * num_edges)` set to 0. -/
def clear_second_block (mesh : Mesh) (edges : List Plane_intersection) (x : Nat → ℚ) :
    Nat → ℚ :=
  fun j =>
    if mesh.number_of_faces + edges.length ≤ j
        ∧ j < mesh.number_of_faces + edges.length + edges.length
    then 0 else x j

/-- Value of the complexity term under `x`: the complexity coefficient times
the variable it was added to, summed over the edge positions. -/
def complexity_term (mesh : Mesh) (edges : List Plane_intersection) (x : Nat → ℚ) : ℚ :=
  ((List.range edges.length).map
    (fun t => coeff_complexity edges * x (mesh.number_of_faces + edges.length + t))).sum

/-- The variables beyond the face variables that occur in the constraints, in
constraint order. -/
def auxiliary_variables (num_faces : Nat) (constraints : List LinearConstraint) : List Nat :=
  constraints.flatMap (fun c => (keys c.coefficients).filter (fun j => decide (num_faces ≤ j)))

/-! ## Binary64 arithmetic (the type `double`) -/

/-- A 3D vector with exact coordinates. -/
structure Vector_3 where
  x : ℚ
  y : ℚ
  z : ℚ
deriving DecidableEq

/-- The conversion of an `int` to `unsigned int` that `chart[face] == id`
applies to its signed operand: the value modulo 2^32. -/
def to_unsigned (c : Int) : Nat := (c % 2 ^ 32).toNat

/-- The call `segment.insert(face)` on a `std::set<Face>`, the set being listed
in its iteration order (increasing face index): a face already present is not
inserted again. -/
def set_insert : List Face → Face → List Face
  | [], f => [f]
  | g :: rest, f =>
    if f < g then f :: g :: rest
    else if f = g then g :: rest
    else g :: set_insert rest f

/-- Lines 23-32: `select_segment`. The parameter `id` is an `unsigned int`; the
result is the `std::set<Face>` listed in its iteration order. -/
def select_segment (mesh : Mesh) (id : Nat) : List Face :=
  mesh.faces.foldl
    (fun segment face =>
      if to_unsigned (mesh.chart face) = id then set_insert segment face else segment)
    []

/-- The algorithm `std::max_element(first, last, comp)`: the first element of
the range that no later element exceeds under `comp`; the end iterator (no
element) on an empty range. -/
def max_element (comp : Face → Face → Bool) : List Face → Option Face
  | [] => none
  | first :: rest =>
    some (rest.foldl (fun largest x => if comp largest x then x else largest) first)

/-- Lines 48-59: `compute_segment_orientation`. The kernel call
`CGAL::Polygon_mesh_processing::compute_face_normal` is a parameter. There is
no result when the map `"f:planarity"` does not exist (`.value()` fails) or
when the segment is empty (the end iterator is dereferenced). -/
def compute_segment_orientation (compute_face_normal : Face → Vector_3) (mesh : Mesh)
    (id : Nat) : Option Vector_3 :=
  let segment := select_segment mesh id
  match mesh.f_planarity with
  | none => none
  | some planarity =>
    match max_element (fun a b => decide (planarity a < planarity b)) segment with
    | none => none
    | some max_face => some (compute_face_normal max_face)

/-- A 3D segment between two points. -/
structure Segment_3 where
  source : Point_3
  target : Point_3
deriving DecidableEq

/-- Lines 63-78: `get_segment_vertices`. The result is the `std::set<Vertex>`
listed in its iteration order; the vertices around each face of the segment
are inserted one by one. -/
def get_segment_vertices (mesh : Mesh) (id : Nat) : List Vertex :=
  (select_segment mesh id).foldl
    (fun vertices face => (mesh.vertex_around_face face).foldl set_insert vertices)
    []

/-- The segment `Segment_3(geom[source(h)], geom[target(h)])` of a halfedge. -/
def halfedge_segment (mesh : Mesh) (h : Halfedge) : Segment_3 :=
  { source := mesh.points (mesh.source h), target := mesh.points (mesh.target h) }

/-- Lines 82-101: `get_segment_edges`: one segment per halfedge around each
face of the segment, appended in traversal order. -/
def get_segment_edges (mesh : Mesh) (id : Nat) : List Segment_3 :=
  (select_segment mesh id).foldl
    (fun edges face =>
      (mesh.halfedges_around_face (mesh.halfedge face)).foldl
        (fun edges h => edges ++ [halfedge_segment mesh h])
        edges)
    []

/-- Lines 105-131: `get_interior_points`: for each vertex of the segment, the
flag `is_in` stays true when no face around the vertex has a chart that
compares different from `id`; the point of the vertex is then appended. -/
def get_interior_points (mesh : Mesh) (id : Nat) : List Point_3 :=
  (get_segment_vertices mesh id).foldl
    (fun interior vertex =>
      let neighbors := mesh.face_around_vertex vertex
      let is_in := neighbors.all (fun neighbor => decide (to_unsigned (mesh.chart neighbor) = id))
      if is_in then interior ++ [mesh.points vertex] else interior)
    []

/-- Lines 147-157, the test on one halfedge: the face of the opposite halfedge
is not the null face and its chart compares different from `id`. -/
def across_other_chart (mesh : Mesh) (id : Nat) (h : Halfedge) : Bool :=
  match mesh.face (mesh.opposite h) with
  | none => false
  | some opp_face => decide (to_unsigned (mesh.chart opp_face) ≠ id)

/-- Lines 135-161: `get_segment_border`: the halfedges around each face of the
segment are visited in traversal order and the segment of a halfedge is
appended when the test of lines 152-153 succeeds. -/
def get_segment_border (mesh : Mesh) (id : Nat) : List Segment_3 :=
  (select_segment mesh id).foldl
    (fun border face =>
      (mesh.halfedges_around_face (mesh.halfedge face)).foldl
        (fun border h =>
          if across_other_chart mesh id h then border ++ [halfedge_segment mesh h] else border)
        border)
    []

/-- The halfedges visited by `get_segment_edges` and `get_segment_border`: those
around the faces of the segment, in traversal order. -/
def segment_halfedges (mesh : Mesh) (id : Nat) : List Halfedge :=
  (select_segment mesh id).flatMap (fun face => mesh.halfedges_around_face (mesh.halfedge face))

/-- The halfedges of the segment whose face across exists and has a chart that
compares different from `id`: the ones a border segment is reported for. -/
def border_halfedges (mesh : Mesh) (id : Nat) : List Halfedge :=
  (segment_halfedges mesh id).filter (across_other_chart mesh id)

/-- The vertices of the segment all of whose surrounding faces have a chart
that compares equal to `id`: the ones an interior point is reported for. -/
def interior_vertices (mesh : Mesh) (id : Nat) : List Vertex :=
  (get_segment_vertices mesh id).filter
    (fun vertex => (mesh.face_around_vertex vertex).all
      (fun neighbor => decide (to_unsigned (mesh.chart neighbor) = id)))

/-! ## The command-line run (main.cpp) -/

/-- Modelled from the spec: the structure graph of `StructureGraph.h`, which is
not among the sources: chart ids as nodes, weighted pairs of chart ids as edges. -/
structure Graph where
  nodes : List Nat
  edges : List (Nat × Nat × ℚ)

/-- What `main` calls but the sources do not contain: the build-time root
directory, the mesh reader, the fitting primitive, the segmentation and graph
steps, and the candidate generation and the solver of the simplification
step. A step that updates the mesh in place returns it as left. A step's call
need not return, as when an exception leaves it or it ends the process: then
its result is `none`. -/
structure Collaborators where
  /-- The build-time string `POLYGONIZATION_ROOT_DIR`. -/
  POLYGONIZATION_ROOT_DIR : String
  /-- The call `read_polygon_mesh(input_file, mesh)`: the mesh, or nothing on failure. -/
  read_polygon_mesh : String → Option Mesh
  /-- The fitting primitive used by `Planarity`. -/
  linear_least_squares_fitting_3 : List Point_3 → ℚ
  /-- The call `seg.apply(&mesh, dist_threshold, num_rings)`: the mesh as
  left, and the number of segments. -/
  segmentation_apply : Mesh → ℚ → Nat → Option (Mesh × Nat)
  /-- The call `graph.construct(&mesh, seg_number, importance_threshold)`: the
  mesh as left, and the graph. -/
  graph_construct : Mesh → Nat → ℚ → Option (Mesh × Graph)
  /-- Inside the simplification step: the candidate faces and the intersection
  edges that it hands to `optimize`. -/
  candidate_faces : Mesh → Graph → Option (Mesh × List Plane_intersection)
  /-- The solver object that `optimize` creates. -/
  solver : LinearProgramSolver

/-- Modelled from the spec: the result extraction of the simplification step,
which is not among the sources. By the spec "the assignment's face variables
with value 1 select the output polygon set": the faces whose variable is 1 in
the vector `X` are kept; with the empty vector of a failed solve no face is. -/
def extract_selected (mesh : Mesh) (X : List ℚ) : Mesh :=
  { mesh with
    faces := mesh.faces.filter (fun f => decide (X.getD (face_indices mesh f) 0 = 1))
    faces_nodup := mesh.faces_nodup.filter _ }

/-- Modelled from the spec: the simplification step `Simplification::apply`,
which is not among the sources. By the spec the candidate faces and their
intersection edges go to the optimisation (`optimize` of Optimization.h, which
is among the sources); on success the selected faces make up the simplified
mesh, and on solver failure "the operation yields an empty result", "a
reported, non-fatal outcome the caller must handle": the call returns with a
result that has no face. -/
def Simplification.apply (env : Collaborators) (mesh : Mesh) (G : Graph)
    (solver_name : SolverName) : Option Mesh :=
  match env.candidate_faces mesh G with
  | none => none
  | some (candidate_faces, edges) =>
    let X := optimize env.solver candidate_faces edges solver_name
    some (extract_selected candidate_faces X)

/-- Two triangles sharing the edge 0-2: vertices 0..3, face 0 over the vertices
0, 1, 2 and face 1 over the vertices 0, 2, 3. -/
def two_triangles : Mesh :=
  { vertices := [0, 1, 2, 3]
    faces := [0, 1]
    vertices_nodup := by decide
    faces_nodup := by decide
    points := fun v => ⟨(v : ℚ), (v : ℚ) * (v : ℚ), ((v % 2 : Nat) : ℚ)⟩
    vertex_around_face := fun f => if f = 0 then [0, 1, 2] else [0, 2, 3]
    get_k_ring_vertices := fun v k =>
      if k = 0 then [v]
      else if k = 1 ∧ v = 1 then [0, 1, 2]
      else if k = 1 ∧ v = 3 then [0, 2, 3]
      else [0, 1, 2, 3]
    bbox := ⟨0, 3, 0, 9, 0, 1⟩
    f_index := fun _ => 7
    supporting_face_num := fun f => if f = 0 then 3 else 1
    covered_area := fun f => if f = 0 then 1 else 2
    area := fun f => if f = 0 then 2 else 4
    v_planarity := none
    f_planarity := none }

/-- One intersection edge whose fan is the two faces of `two_triangles`. -/
def one_shared_edge : List Plane_intersection := [⟨[0, 1]⟩]

/-- Assignment selecting both faces and using the edge: ones on variables 0, 1, 2. -/
def select_both : Nat → ℚ := fun i => if i < 3 then 1 else 0

/-- A solver that reports failure and is left holding a stale vector. -/
def failing_solver : LinearProgramSolver :=
  { solve := fun _ _ => false
    solution := fun _ _ => [1, 1] }

/-- A solver that reports success with the all-ones vector over the program's variables. -/
def succeeding_solver : LinearProgramSolver :=
  { solve := fun _ _ => true
    solution := fun p _ => List.replicate p.variables_.length 1 }

/-- A shared edge followed by a dangling edge with a single fan face. -/
def shared_then_dangling : List Plane_intersection := [⟨[0, 1]⟩, ⟨[0]⟩]

/-- A dangling edge followed by a shared edge. -/
def dangling_then_shared : List Plane_intersection := [⟨[1]⟩, ⟨[0, 1]⟩]

/-- A fitting primitive for the examples: the number of points it is given. -/
def count_fit : List Point_3 → ℚ := fun pts => (pts.length : ℚ)

/-- A point cloud stored as a mesh: 2^31 isolated vertices on the x axis and no
face. No vertex has a neighbour, so every k-ring is the vertex itself. No
planarity map exists yet. -/
def isolated_vertices : Mesh :=
  { vertices := List.range (2 ^ 31)
    faces := []
    vertices_nodup := List.nodup_range _
    faces_nodup := List.nodup_nil
    points := fun v => ⟨(v : ℚ), 0, 0⟩
    vertex_around_face := fun _ => []
    get_k_ring_vertices := fun v _ => [v]
    bbox := ⟨0, 2 ^ 31 - 1, 0, 0, 0, 0⟩
    f_index := fun _ => 0
    supporting_face_num := fun _ => 0
    covered_area := fun _ => 0
    area := fun _ => 0
    v_planarity := none
    f_planarity := none }

/-- The two triangles after planarity estimation and segmentation: face 0 in
chart 0, face 1 in chart 1, both with planarity 1. -/
def two_charts : Mesh :=
  { two_triangles with
    chart := fun f => if f = 0 then 0 else 1
    f_planarity := some (fun _ => 1) }

/-- Four faces in one chart: faces 5 and 7 share the largest planarity. -/
def one_chart : Mesh :=
  { two_triangles with
    faces := [2, 5, 7, 9]
    faces_nodup := by decide
    chart := fun _ => 3
    f_planarity := some (fun f => if f = 5 ∨ f = 7 then 4 else 1) }

/-- A face normal for the examples: the face index along the z axis. -/
def index_normal : Face → Vector_3 := fun f => ⟨0, 0, (f : ℚ)⟩

/-- The assignment giving 1 to every variable. -/
def select_all : Nat → ℚ := fun _ => 1

/-- The two triangles with their halfedges: 0, 1, 2 around face 0
(0→1, 1→2, 2→0), 3, 4, 5 around face 1 (0→2, 2→3, 3→0), and the border
halfedges 6..9 opposite to 0, 1, 4, 5; the halfedges 2 and 3 are opposite to
each other. Face 0 is in chart 0 and face 1 in chart 1. -/
def connected_charts : Mesh :=
  { two_charts with
    halfedge := fun f => if f = 0 then 0 else 3
    halfedges_around_face := fun h => if h < 3 then [0, 1, 2] else [3, 4, 5]
    opposite := fun h => ([6, 7, 3, 2, 8, 9, 0, 1, 4, 5] : List Nat).getD h h
    face := fun h =>
      ([some 0, some 0, some 0, some 1, some 1, some 1] : List (Option Nat)).getD h none
    source := fun h => ([0, 1, 2, 0, 2, 3, 1, 2, 3, 0] : List Nat).getD h 0
    target := fun h => ([1, 2, 0, 2, 3, 0, 0, 1, 2, 3] : List Nat).getD h 0
    face_around_vertex := fun v =>
      if v = 0 ∨ v = 2 then [0, 1] else if v = 1 then [0] else if v = 3 then [1] else [] }

theorem evaluate_add_coefficient (e : Coefficients) (i : Nat) (c : ℚ) (x : Nat → ℚ) :
    evaluate (add_coefficient e i c) x = evaluate e x + c * x i := by
  induction e with
  | nil => simp [add_coefficient, evaluate]
  | cons hd tl ih =>
    obtain ⟨j, d⟩ := hd
    by_cases h : j = i
    · subst h
      simp [add_coefficient, evaluate]
      ring
    · simp [add_coefficient, evaluate, h, ih]
      ring

theorem coefficient_add_coefficient (e : Coefficients) (i : Nat) (c : ℚ) (j : Nat) :
    coefficient (add_coefficient e i c) j = coefficient e j + (if i = j then c else 0) := by
  induction e with
  | nil => simp [add_coefficient, coefficient]
  | cons hd tl ih =>
    obtain ⟨k, d⟩ := hd
    by_cases h : k = i
    · subst h
      by_cases hj : k = j
      · simp [add_coefficient, coefficient, hj]
      · simp [add_coefficient, coefficient, hj]
    · by_cases hj : k = j
      · subst hj
        have : ¬ i = k := fun h2 => h h2.symm
        simp [add_coefficient, coefficient, h, this]
      · simp [add_coefficient, coefficient, h, hj, ih]

/-! ## Lemmas on the first face loop -/

theorem face_loop_not_mem (mesh : Mesh) (l : List Face) (s : FaceLoopState) (f : Face)
    (hf : f ∉ l) :
    (l.foldl (face_loop_step mesh) s).face_indices f = s.face_indices f := by
  induction l generalizing s with
  | nil => rfl
  | cons a t ih =>
    have hne : f ≠ a := fun h => hf (h ▸ List.mem_cons_self _ _)
    have hft : f ∉ t := fun h => hf (List.mem_cons_of_mem _ h)
    rw [List.foldl_cons, ih _ hft]
    simp [face_loop_step, Function.update_noteq hne]

theorem face_loop_mem (mesh : Mesh) (l : List Face) (s : FaceLoopState) (f : Face)
    (hf : f ∈ l) (hl : l.Nodup) :
    (l.foldl (face_loop_step mesh) s).face_indices f = s.idx + l.indexOf f := by
  induction l generalizing s with
  | nil => simp at hf
  | cons a t ih =>
    rw [List.nodup_cons] at hl
    rw [List.foldl_cons]
    by_cases h : f = a
    · subst h
      rw [face_loop_not_mem mesh t _ f hl.1]
      simp [face_loop_step]
    · have hft : f ∈ t := by
        rcases List.mem_cons.mp hf with h1 | h1
        · exact absurd h1 h
        · exact h1
      rw [ih _ hft hl.2, List.indexOf_cons_ne _ (fun h2 => h h2.symm)]
      simp [face_loop_step]
      omega

theorem face_loop_total (mesh : Mesh) (l : List Face) (s : FaceLoopState) :
    (l.foldl (face_loop_step mesh) s).total_faces
      = s.total_faces + (l.map (fun f => (mesh.supporting_face_num f : ℚ))).sum := by
  induction l generalizing s with
  | nil => simp
  | cons a t ih =>
    rw [List.foldl_cons, ih]
    simp [face_loop_step]
    ring

theorem face_indices_eq_indexOf (mesh : Mesh) (f : Face) (hf : f ∈ mesh.faces) :
    face_indices mesh f = mesh.faces.indexOf f := by
  unfold face_indices face_loop
  rw [face_loop_mem mesh mesh.faces _ f hf mesh.faces_nodup]
  simp

theorem face_indices_lt (mesh : Mesh) (f : Face) (hf : f ∈ mesh.faces) :
    face_indices mesh f < mesh.number_of_faces := by
  rw [face_indices_eq_indexOf mesh f hf]
  exact List.indexOf_lt_length.mpr hf

theorem face_indices_injective (mesh : Mesh) (f g : Face) (hf : f ∈ mesh.faces)
    (hg : g ∈ mesh.faces) (h : face_indices mesh f = face_indices mesh g) : f = g := by
  rw [face_indices_eq_indexOf mesh f hf, face_indices_eq_indexOf mesh g hg] at h
  exact (List.indexOf_inj hf hg).mp h

theorem total_faces_eq (mesh : Mesh) :
    total_faces mesh = (mesh.faces.map (fun f => (mesh.supporting_face_num f : ℚ))).sum := by
  unfold total_faces face_loop
  rw [face_loop_total]
  simp

/-! ## Lemmas on the constraint loop -/

theorem fan_coefficients_bounds (fi : Face → Nat) (fan : List Face) (c : LinearConstraint) :
    (fan_coefficients fi fan c).bound_type = c.bound_type
      ∧ (fan_coefficients fi fan c).lower = c.lower
      ∧ (fan_coefficients fi fan c).upper = c.upper := by
  induction fan generalizing c with
  | nil => simp [fan_coefficients]
  | cons a t ih =>
    have := ih { c with coefficients := add_coefficient c.coefficients (fi a) 1 }
    simpa [fan_coefficients] using this

theorem fan_coefficients_evaluate (fi : Face → Nat) (fan : List Face) (c : LinearConstraint)
    (x : Nat → ℚ) :
    evaluate (fan_coefficients fi fan c).coefficients x
      = evaluate c.coefficients x + (fan.map (fun f => x (fi f))).sum := by
  induction fan generalizing c with
  | nil => simp [fan_coefficients]
  | cons a t ih =>
    have := ih { c with coefficients := add_coefficient c.coefficients (fi a) 1 }
    simp only [fan_coefficients, List.foldl_cons] at this ⊢
    rw [this, evaluate_add_coefficient]
    simp
    ring

theorem fan_coefficients_coefficient (fi : Face → Nat) (fan : List Face) (c : LinearConstraint)
    (j : Nat) :
    coefficient (fan_coefficients fi fan c).coefficients j
      = coefficient c.coefficients j + ((fan.filter (fun f => decide (fi f = j))).length : ℚ) := by
  induction fan generalizing c with
  | nil => simp [fan_coefficients]
  | cons a t ih =>
    have := ih { c with coefficients := add_coefficient c.coefficients (fi a) 1 }
    simp only [fan_coefficients, List.foldl_cons] at this ⊢
    rw [this, coefficient_add_coefficient]
    by_cases h : fi a = j
    · simp [List.filter_cons, h]
      ring
    · simp [List.filter_cons, h]

theorem edge_constraints_length (num_faces : Nat) (fi : Face → Nat)
    (edges : List Plane_intersection) (k : Nat) :
    (edge_constraints num_faces fi edges k).length = edges.length := by
  induction edges generalizing k with
  | nil => rfl
  | cons e t ih => simp [edge_constraints, ih]

theorem num_qualifying_cons (e : Plane_intersection) (t : List Plane_intersection) :
    num_qualifying (e :: t) = next_edge_used_idx e 0 + num_qualifying t := by
  unfold num_qualifying next_edge_used_idx
  by_cases h : 2 ≤ e.fan.length
  · simp [List.filter_cons, h]
    omega
  · simp [List.filter_cons, h]

theorem next_edge_used_idx_add (e : Plane_intersection) (k : Nat) :
    next_edge_used_idx e k = k + next_edge_used_idx e 0 := by
  unfold next_edge_used_idx
  split <;> simp

theorem edge_constraints_getElem? (num_faces : Nat) (fi : Face → Nat)
    (edges : List Plane_intersection) (k i : Nat) :
    (edge_constraints num_faces fi edges k)[i]?
      = edges[i]?.map
          (fun e => edge_constraint num_faces fi e (k + num_qualifying (edges.take i))) := by
  induction edges generalizing k i with
  | nil => simp [edge_constraints]
  | cons e t ih =>
    cases i with
    | zero => simp [edge_constraints, num_qualifying]
    | succ n =>
      simp only [edge_constraints, List.getElem?_cons_succ, List.take_succ_cons]
      rw [ih, num_qualifying_cons, next_edge_used_idx_add e k]
      simp [Nat.add_assoc]

theorem edge_constraint_bounds (num_faces : Nat) (fi : Face → Nat) (e : Plane_intersection)
    (k : Nat) :
    (edge_constraint num_faces fi e k).bound_type = BoundType.FIXED
      ∧ (edge_constraint num_faces fi e k).lower = 0
      ∧ (edge_constraint num_faces fi e k).upper = 0 := by
  have h := fan_coefficients_bounds fi e.fan (create_constraint BoundType.FIXED 0 0)
  unfold edge_constraint
  split
  · simpa [create_constraint] using h
  · simpa [create_constraint] using h

theorem edge_constraint_evaluate (num_faces : Nat) (fi : Face → Nat) (e : Plane_intersection)
    (k : Nat) (x : Nat → ℚ) :
    evaluate (edge_constraint num_faces fi e k).coefficients x
      = (e.fan.map (fun f => x (fi f))).sum
        - (if 2 ≤ e.fan.length then 2 * x (num_faces + k) else 0) := by
  have h := fan_coefficients_evaluate fi e.fan (create_constraint BoundType.FIXED 0 0) x
  unfold edge_constraint
  split
  · simp only [evaluate_add_coefficient, h]
    simp [create_constraint, evaluate]
    ring
  · rw [h]
    simp [create_constraint, evaluate]

theorem edge_constraint_coefficient (num_faces : Nat) (fi : Face → Nat) (e : Plane_intersection)
    (k j : Nat) :
    coefficient (edge_constraint num_faces fi e k).coefficients j
      = ((e.fan.filter (fun f => decide (fi f = j))).length : ℚ)
        + (if 2 ≤ e.fan.length ∧ num_faces + k = j then -2 else 0) := by
  have h := fan_coefficients_coefficient fi e.fan (create_constraint BoundType.FIXED 0 0) j
  unfold edge_constraint
  split
  · rename_i h2
    simp only [coefficient_add_coefficient, h]
    simp [create_constraint, coefficient, h2]
  · rename_i h2
    rw [h]
    simp [create_constraint, coefficient, h2]

theorem edge_constraint_dangling (num_faces : Nat) (fi : Face → Nat) (e : Plane_intersection)
    (k : Nat) (h : e.fan.length < 2) :
    (edge_constraint num_faces fi e k).coefficients = e.fan.map (fun f => (fi f, (1 : ℚ))) := by
  have hnot : ¬ 2 ≤ e.fan.length := by omega
  unfold edge_constraint
  simp only [if_neg hnot]
  match hf : e.fan with
  | [] => simp [fan_coefficients, create_constraint]
  | [f] => simp [fan_coefficients, create_constraint, add_coefficient]
  | _ :: _ :: _ =>
    rw [hf] at h
    simp only [List.length_cons] at h
    omega

theorem edge_constraint_mem (num_faces : Nat) (fi : Face → Nat)
    (edges : List Plane_intersection) (k i : Nat) (hi : i < edges.length) :
    edge_constraint num_faces fi (edges.get ⟨i, hi⟩) (k + num_qualifying (edges.take i))
      ∈ edge_constraints num_faces fi edges k := by
  have h := edge_constraints_getElem? num_faces fi edges k i
  rw [List.getElem?_eq_getElem hi] at h
  exact List.getElem?_mem h

theorem num_qualifying_le_length (edges : List Plane_intersection) :
    num_qualifying edges ≤ edges.length := by
  unfold num_qualifying
  exact List.length_filter_le _ _

theorem num_qualifying_take_le (edges : List Plane_intersection) (i : Nat) :
    num_qualifying (edges.take i) ≤ i := by
  have h := num_qualifying_le_length (edges.take i)
  have h2 : (edges.take i).length ≤ i := by simp
  omega

theorem binary_sum_eq_count {α : Type} (v : α → ℚ) (l : List α)
    (h : ∀ a ∈ l, v a = 0 ∨ v a = 1) :
    (l.map v).sum = ((l.filter (fun a => decide (v a = 1))).length : ℚ) := by
  induction l with
  | nil => simp
  | cons a t ih =>
    have ht : ∀ b ∈ t, v b = 0 ∨ v b = 1 := fun b hb => h b (List.mem_cons_of_mem _ hb)
    rcases h a (List.mem_cons_self _ _) with h0 | h1
    · simp [List.filter_cons, h0, ih ht]
    · simp [List.filter_cons, h1, ih ht]
      ring

theorem selected_faces_card (mesh : Mesh) (x : Nat → ℚ) (fan : List Face) (hfan : fan.Nodup) :
    (selected_faces mesh x fan).card
      = (fan.filter (fun f => decide (x (face_indices mesh f) = 1))).length := by
  unfold selected_faces
  rw [← List.toFinset_card_of_nodup (hfan.filter _), List.toFinset_filter]
  congr 1
  ext f
  simp

/-! ## Lemmas on the variables -/

theorem set_binary_length (l : List Nat) (vars : List VariableType) :
    (l.foldl (fun vars i => set_variable_type vars i VariableType.BINARY) vars).length
      = vars.length := by
  induction l generalizing vars with
  | nil => rfl
  | cons a t ih =>
    rw [List.foldl_cons, ih]
    simp [set_variable_type]

theorem set_binary_getElem? (l : List Nat) (vars : List VariableType) (i : Nat)
    (hi : i < vars.length) :
    (l.foldl (fun vars i => set_variable_type vars i VariableType.BINARY) vars)[i]?
      = if i ∈ l then some VariableType.BINARY else vars[i]? := by
  induction l generalizing vars with
  | nil => simp
  | cons a t ih =>
    have hlen : i < (set_variable_type vars a VariableType.BINARY).length := by
      simpa [set_variable_type] using hi
    rw [List.foldl_cons, ih _ hlen]
    by_cases hit : i ∈ t
    · simp [hit]
    · by_cases hia : i = a
      · subst hia
        simp [hit, set_variable_type, List.getElem?_set_self, hi]
      · have hai : ¬ a = i := fun h => hia h.symm
        simp [hit, hia, set_variable_type, List.getElem?_set_ne hai]

theorem binary_variables_length (n : Nat) : (binary_variables n).length = n := by
  unfold binary_variables
  rw [set_binary_length]
  simp [create_n_variables]

theorem binary_variables_all (n : Nat) (v : VariableType) (hv : v ∈ binary_variables n) :
    v = VariableType.BINARY := by
  obtain ⟨i, hi, hget⟩ := List.mem_iff_getElem.mp hv
  have hin : i < n := by simpa [binary_variables_length] using hi
  have h2 : (binary_variables n)[i]? = some v := by
    rw [List.getElem?_eq_getElem hi, hget]
  unfold binary_variables at h2
  rw [set_binary_getElem? _ _ i (by simpa [create_n_variables] using hin)] at h2
  simp [hin] at h2
  exact h2.symm

theorem optimize_program_variables_length (mesh : Mesh) (edges : List Plane_intersection) :
    (optimize_program mesh edges).variables_.length = total_variables mesh edges := by
  simp [optimize_program, binary_variables_length]

/-! ## Evaluation of the face index map on the concrete mesh -/

theorem two_triangles_face_indices :
    face_indices two_triangles 0 = 0 ∧ face_indices two_triangles 1 = 1 := by
  constructor <;> rfl

/-! ## Claims on the constraints -/

/-- C1 (manifoldness). In the program built by `optimize`, for every assignment
that is 0 or 1 on every variable and satisfies every constraint, and every
intersection edge whose fan has at least two pairwise distinct faces of the
mesh, the number of fan faces whose selection variable is 1 is exactly 0 or
exactly 2. -/
theorem optimize_manifold (mesh : Mesh) (edges : List Plane_intersection) (x : Nat → ℚ)
    (hfaces : ∀ e ∈ edges, ∀ f ∈ e.fan, f ∈ mesh.faces)
    (hdistinct : ∀ e ∈ edges, e.fan.Nodup)
    (hbin : is_binary_assignment (optimize_program mesh edges).variables_.length x)
    (hfeas : (optimize_program mesh edges).feasible x)
    (e : Plane_intersection) (he : e ∈ edges) (hfan : 2 ≤ e.fan.length) :
    (selected_faces mesh x e.fan).card = 0 ∨ (selected_faces mesh x e.fan).card = 2 := by
  obtain ⟨i, hi, hget⟩ := List.mem_iff_getElem.mp he
  have hmem := edge_constraint_mem mesh.number_of_faces (face_indices mesh) edges 0 i hi
  have hsat := hfeas _ hmem
  have hb := edge_constraint_bounds mesh.number_of_faces (face_indices mesh)
    (edges.get ⟨i, hi⟩) (0 + num_qualifying (edges.take i))
  have hev := edge_constraint_evaluate mesh.number_of_faces (face_indices mesh)
    (edges.get ⟨i, hi⟩) (0 + num_qualifying (edges.take i)) x
  have hge : edges.get ⟨i, hi⟩ = e := hget
  rw [hge] at hb hev hsat
  unfold LinearConstraint.satisfied at hsat
  rw [hb.1] at hsat
  simp only [hb.2.1] at hsat
  rw [hev, if_pos hfan] at hsat
  have hlen := optimize_program_variables_length mesh edges
  have hk := num_qualifying_take_le edges i
  have hy : x (mesh.number_of_faces + (0 + num_qualifying (edges.take i))) = 0
      ∨ x (mesh.number_of_faces + (0 + num_qualifying (edges.take i))) = 1 := by
    apply hbin
    rw [hlen]
    unfold total_variables
    omega
  have hx : ∀ f ∈ e.fan, x (face_indices mesh f) = 0 ∨ x (face_indices mesh f) = 1 := by
    intro f hf
    apply hbin
    rw [hlen]
    have := face_indices_lt mesh f (hfaces e he f hf)
    unfold total_variables
    omega
  rw [binary_sum_eq_count (fun f => x (face_indices mesh f)) e.fan hx] at hsat
  rw [selected_faces_card mesh x e.fan (hdistinct e he)]
  rcases hy with h0 | h1
  · left
    rw [h0] at hsat
    have : ((e.fan.filter (fun f => decide (x (face_indices mesh f) = 1))).length : ℚ) = 0 := by
      linarith
    exact_mod_cast this
  · right
    rw [h1] at hsat
    have : ((e.fan.filter (fun f => decide (x (face_indices mesh f) = 1))).length : ℚ) = 2 := by
      linarith
    exact_mod_cast this

theorem select_both_binary (n : Nat) : is_binary_assignment n select_both := by
  intro i _
  unfold select_both
  by_cases h : i < 3
  · right
    simp [h]
  · left
    simp [h]

theorem select_both_feasible :
    (optimize_program two_triangles one_shared_edge).feasible select_both := by
  intro c hc
  have h0 := two_triangles_face_indices.1
  have h1 := two_triangles_face_indices.2
  simp only [optimize_program, one_shared_edge, edge_constraints, List.mem_singleton] at hc
  subst hc
  simp only [LinearConstraint.satisfied, edge_constraint_bounds, edge_constraint_evaluate]
  have hn : two_triangles.number_of_faces = 2 := rfl
  simp [h0, h1, hn, select_both]
  norm_num

/-- Witness for C1: on the two-triangle mesh with one shared edge, the
assignment selecting both faces and the edge is binary and feasible. -/
theorem optimize_manifold_witness :
    (optimize_program two_triangles one_shared_edge).feasible select_both
      ∧ ((selected_faces two_triangles select_both [0, 1]).card = 0
        ∨ (selected_faces two_triangles select_both [0, 1]).card = 2) :=
  ⟨select_both_feasible,
    optimize_manifold two_triangles one_shared_edge select_both
      (by decide) (by decide) (select_both_binary _) select_both_feasible
      ⟨[0, 1]⟩ (by simp [one_shared_edge]) (by decide)⟩

/-- C2. For an intersection edge at position `i` whose fan has fewer than two
faces, the constraint `optimize` builds at position `i` is a fixed constraint
with both bounds 0 whose only entries are the fan faces' selection variables
with coefficient 1 (no auxiliary variable), so every assignment satisfying the
constraints, binary or not, gives 0 to the selection variable of the fan's
sole face. -/
theorem optimize_dangling_edge (mesh : Mesh) (edges : List Plane_intersection) (i : Nat)
    (hi : i < edges.length) (hfan : (edges.get ⟨i, hi⟩).fan.length < 2) :
    ∃ c, (optimize_program mesh edges).constraints[i]? = some c
      ∧ c.bound_type = BoundType.FIXED ∧ c.lower = 0 ∧ c.upper = 0
      ∧ c.coefficients = (edges.get ⟨i, hi⟩).fan.map (fun f => (face_indices mesh f, (1 : ℚ)))
      ∧ ∀ x, (optimize_program mesh edges).feasible x →
          ∀ f ∈ (edges.get ⟨i, hi⟩).fan, x (face_indices mesh f) = 0 := by
  have hget := edge_constraints_getElem? mesh.number_of_faces (face_indices mesh) edges 0 i
  rw [List.getElem?_eq_getElem hi] at hget
  have hmem := edge_constraint_mem mesh.number_of_faces (face_indices mesh) edges 0 i hi
  have hb := edge_constraint_bounds mesh.number_of_faces (face_indices mesh)
    (edges.get ⟨i, hi⟩) (0 + num_qualifying (edges.take i))
  have hev := edge_constraint_evaluate mesh.number_of_faces (face_indices mesh)
    (edges.get ⟨i, hi⟩) (0 + num_qualifying (edges.take i))
  have hnot : ¬ 2 ≤ (edges.get ⟨i, hi⟩).fan.length := by omega
  refine ⟨_, hget, hb.1, hb.2.1, hb.2.2, ?_, ?_⟩
  · exact edge_constraint_dangling _ _ _ _ hfan
  · intro x hx f hf
    have hsat := hx _ hmem
    unfold LinearConstraint.satisfied at hsat
    rw [hb.1] at hsat
    simp only [hb.2.1] at hsat
    rw [hev, if_neg hnot] at hsat
    match hfan2 : (edges.get ⟨i, hi⟩).fan with
    | [] => rw [hfan2] at hf; simp at hf
    | [g] =>
      rw [hfan2] at hf hsat
      simp at hf hsat
      rw [hf]
      exact hsat
    | _ :: _ :: _ =>
      rw [hfan2] at hfan
      simp only [List.length_cons] at hfan
      omega

/-- Witness for C2: the dangling second edge of `shared_then_dangling`. -/
theorem optimize_dangling_edge_witness :
    ∃ c, (optimize_program two_triangles shared_then_dangling).constraints[1]? = some c
      ∧ c.bound_type = BoundType.FIXED ∧ c.lower = 0 ∧ c.upper = 0
      ∧ c.coefficients = [(0 : Face)].map (fun f => (face_indices two_triangles f, (1 : ℚ)))
      ∧ ∀ x, (optimize_program two_triangles shared_then_dangling).feasible x →
          ∀ f ∈ [(0 : Face)], x (face_indices two_triangles f) = 0 :=
  optimize_dangling_edge two_triangles shared_then_dangling 1 (by decide) (by decide)

/-- C3. `optimize` creates exactly one constraint per intersection edge, in
edge order, each a fixed constraint with both bounds 0; when the fan of the
edge at position `i` has at least two faces, the constraint's expression is the
sum of the fan faces' selection variables minus twice the variable at index
`num_faces + (number of edges before position i with at least two fan faces)`. -/
theorem optimize_constraint_per_edge (mesh : Mesh) (edges : List Plane_intersection) :
    (optimize_program mesh edges).constraints.length = edges.length
      ∧ ∀ (i : Nat) (hi : i < edges.length),
        ∃ c, (optimize_program mesh edges).constraints[i]? = some c
          ∧ c.bound_type = BoundType.FIXED ∧ c.lower = 0 ∧ c.upper = 0
          ∧ (2 ≤ (edges.get ⟨i, hi⟩).fan.length →
              (∀ x : Nat → ℚ, evaluate c.coefficients x
                  = ((edges.get ⟨i, hi⟩).fan.map (fun f => x (face_indices mesh f))).sum
                    - 2 * x (mesh.number_of_faces + num_qualifying (edges.take i)))
              ∧ ∀ j : Nat, coefficient c.coefficients j
                  = (((edges.get ⟨i, hi⟩).fan.filter
                        (fun f => decide (face_indices mesh f = j))).length : ℚ)
                    + (if mesh.number_of_faces + num_qualifying (edges.take i) = j
                        then -2 else 0)) := by
  refine ⟨edge_constraints_length _ _ _ _, ?_⟩
  intro i hi
  have hget := edge_constraints_getElem? mesh.number_of_faces (face_indices mesh) edges 0 i
  rw [List.getElem?_eq_getElem hi] at hget
  have hb := edge_constraint_bounds mesh.number_of_faces (face_indices mesh)
    (edges.get ⟨i, hi⟩) (0 + num_qualifying (edges.take i))
  refine ⟨_, hget, hb.1, hb.2.1, hb.2.2, ?_⟩
  intro hfan
  constructor
  · intro x
    have hev := edge_constraint_evaluate mesh.number_of_faces (face_indices mesh)
      (edges.get ⟨i, hi⟩) (0 + num_qualifying (edges.take i)) x
    rw [if_pos hfan] at hev
    simpa using hev
  · intro j
    have hco := edge_constraint_coefficient mesh.number_of_faces (face_indices mesh)
      (edges.get ⟨i, hi⟩) (0 + num_qualifying (edges.take i)) j
    simp only [hfan, true_and] at hco
    simpa using hco

/-- Witness for C3: in `dangling_then_shared` the shared edge is at position 1
and no edge before it has two fan faces, so its constraint reads
`x 0 + x 1 - 2 * x 2 = 0`. -/
theorem optimize_constraint_per_edge_witness :
    (optimize_program two_triangles dangling_then_shared).constraints.length = 2
      ∧ ∃ c, (optimize_program two_triangles dangling_then_shared).constraints[1]? = some c
          ∧ c.bound_type = BoundType.FIXED ∧ c.lower = 0 ∧ c.upper = 0
          ∧ ∀ x : Nat → ℚ, evaluate c.coefficients x = x 0 + x 1 - 2 * x 2 := by
  have h := optimize_constraint_per_edge two_triangles dangling_then_shared
  refine ⟨h.1, ?_⟩
  obtain ⟨c, hc, hb, hl, hu, hrest⟩ := h.2 1 (by decide)
  refine ⟨c, hc, hb, hl, hu, ?_⟩
  intro x
  have hx := (hrest (by decide)).1 x
  have h0 := two_triangles_face_indices.1
  have h1 := two_triangles_face_indices.2
  have hn : two_triangles.number_of_faces = 2 := rfl
  have hq : num_qualifying (List.take 1 dangling_then_shared) = 0 := rfl
  have hfan : (dangling_then_shared.get ⟨1, by decide⟩).fan = [0, 1] := rfl
  rw [hx, hfan, hn, hq]
  simp [h0, h1]

/-! ## Lemmas on the objective -/

theorem objective_complexity_coefficient (num_faces num_edges : Nat) (coeff : ℚ)
    (edges : List Plane_intersection) (s : Nat) (obj : Coefficients) (j : Nat) :
    coefficient (objective_complexity num_faces num_edges coeff edges s obj) j
      = coefficient obj j
        + (if num_faces + num_edges + s ≤ j ∧ j < num_faces + num_edges + s + edges.length
            then coeff else 0) := by
  induction edges generalizing s obj with
  | nil =>
    have h : ¬ (num_faces + num_edges + s ≤ j
        ∧ j < num_faces + num_edges + s + ([] : List Plane_intersection).length) := by
      simp only [List.length_nil]
      omega
    rw [if_neg h]
    simp [objective_complexity]
  | cons e t ih =>
    simp only [objective_complexity]
    rw [ih, coefficient_add_coefficient]
    by_cases h1 : num_faces + num_edges + s = j
    · have h2 : ¬ (num_faces + num_edges + (s + 1) ≤ j
          ∧ j < num_faces + num_edges + (s + 1) + t.length) := by omega
      have h3 : num_faces + num_edges + s ≤ j
          ∧ j < num_faces + num_edges + s + (e :: t).length := by
        simp only [List.length_cons]
        omega
      rw [if_pos h1, if_neg h2, if_pos h3]
      ring
    · by_cases h2 : num_faces + num_edges + (s + 1) ≤ j
          ∧ j < num_faces + num_edges + (s + 1) + t.length
      · have h3 : num_faces + num_edges + s ≤ j
            ∧ j < num_faces + num_edges + s + (e :: t).length := by
          simp only [List.length_cons]
          omega
        rw [if_neg h1, if_pos h2, if_pos h3]
        ring
      · have h3 : ¬ (num_faces + num_edges + s ≤ j
            ∧ j < num_faces + num_edges + s + (e :: t).length) := by
          simp only [List.length_cons]
          omega
        rw [if_neg h1, if_neg h2, if_neg h3]
        ring

theorem objective_face_step_coefficient (mesh : Mesh) (obj : Coefficients) (f : Face) (j : Nat) :
    coefficient (objective_face_step mesh obj f) j
      = coefficient obj j + (if face_indices mesh f = j then face_terms mesh f else 0) := by
  unfold objective_face_step face_terms
  simp only [coefficient_add_coefficient]
  by_cases h : face_indices mesh f = j
  · simp [h]
    ring
  · simp [h]

theorem objective_faces_fold_coefficient (mesh : Mesh) (l : List Face) (obj : Coefficients)
    (j : Nat) :
    coefficient (l.foldl (objective_face_step mesh) obj) j
      = coefficient obj j
        + (l.map (fun f => if face_indices mesh f = j then face_terms mesh f else 0)).sum := by
  induction l generalizing obj with
  | nil => simp
  | cons a t ih =>
    rw [List.foldl_cons, ih, objective_face_step_coefficient]
    simp
    ring

theorem sum_single_face (mesh : Mesh) (l : List Face) (f : Face) (hl : l.Nodup)
    (hsub : ∀ g ∈ l, g ∈ mesh.faces) (hf : f ∈ mesh.faces) :
    (l.map (fun g => if face_indices mesh g = face_indices mesh f
        then face_terms mesh g else 0)).sum
      = if f ∈ l then face_terms mesh f else 0 := by
  induction l with
  | nil => simp
  | cons a t ih =>
    rw [List.nodup_cons] at hl
    have hsub2 : ∀ g ∈ t, g ∈ mesh.faces := fun g hg => hsub g (List.mem_cons_of_mem _ hg)
    rw [List.map_cons, List.sum_cons, ih hl.2 hsub2]
    by_cases h : a = f
    · subst h
      simp [hl.1]
    · have hne : ¬ face_indices mesh a = face_indices mesh f := fun h2 =>
        h (face_indices_injective mesh a f (hsub a (List.mem_cons_self _ _)) hf h2)
      have hfa : ¬ f = a := fun h2 => h h2.symm
      simp [hne, List.mem_cons, hfa]

theorem sum_no_face (mesh : Mesh) (l : List Face) (j : Nat)
    (hsub : ∀ g ∈ l, face_indices mesh g ≠ j) :
    (l.map (fun g => if face_indices mesh g = j then face_terms mesh g else 0)).sum = 0 := by
  induction l with
  | nil => simp
  | cons a t ih =>
    have hsub2 : ∀ g ∈ t, face_indices mesh g ≠ j := fun g hg => hsub g (List.mem_cons_of_mem _ hg)
    rw [List.map_cons, List.sum_cons, ih hsub2]
    simp [hsub a (List.mem_cons_self _ _)]

theorem objective_faces_coefficient_face (mesh : Mesh) (f : Face) (hf : f ∈ mesh.faces) :
    coefficient (objective_faces mesh) (face_indices mesh f) = face_terms mesh f := by
  unfold objective_faces
  rw [objective_faces_fold_coefficient,
    sum_single_face mesh mesh.faces f mesh.faces_nodup (fun _ h => h) hf]
  simp [coefficient, hf]

theorem objective_faces_coefficient_other (mesh : Mesh) (j : Nat)
    (hj : mesh.number_of_faces ≤ j) :
    coefficient (objective_faces mesh) j = 0 := by
  unfold objective_faces
  rw [objective_faces_fold_coefficient, sum_no_face]
  · simp [coefficient]
  · intro g hg h
    have := face_indices_lt mesh g hg
    omega

theorem optimize_objective_coefficient (mesh : Mesh) (edges : List Plane_intersection)
    (j : Nat) :
    coefficient (optimize_program mesh edges).objective.coefficients j
      = coefficient (objective_faces mesh) j
        + (if mesh.number_of_faces + edges.length ≤ j
              ∧ j < mesh.number_of_faces + edges.length + edges.length
            then coeff_complexity edges else 0) := by
  have h := objective_complexity_coefficient mesh.number_of_faces edges.length
    (coeff_complexity edges) edges 0 (objective_faces mesh) j
  simpa [optimize_program] using h

/-! ## Claims on the objective -/

/-- C4. For every face `f` of the mesh, the net objective coefficient `optimize`
puts on the selection variable of `f` is
`-w_fit * supporting_face_num[f] / (sum of supporting_face_num over all faces)
 + w_cov * (area[f] - covered_area[f]) / B`, where `B = 2*(dx*dy + dy*dz + dz*dx)`
is the surface area of the bounding box, and the objective is minimised. -/
theorem optimize_face_objective (mesh : Mesh) (edges : List Plane_intersection) (f : Face)
    (hf : f ∈ mesh.faces) :
    (optimize_program mesh edges).objective.sense = Sense.MINIMIZE
      ∧ coefficient (optimize_program mesh edges).objective.coefficients (face_indices mesh f)
        = -wt_fitting * (mesh.supporting_face_num f : ℚ)
              / (mesh.faces.map (fun g => (mesh.supporting_face_num g : ℚ))).sum
          + wt_coverage * (mesh.area f - mesh.covered_area f)
              / (2 * ((mesh.bbox.xmax - mesh.bbox.xmin) * (mesh.bbox.ymax - mesh.bbox.ymin)
                  + (mesh.bbox.ymax - mesh.bbox.ymin) * (mesh.bbox.zmax - mesh.bbox.zmin)
                  + (mesh.bbox.zmax - mesh.bbox.zmin) * (mesh.bbox.xmax - mesh.bbox.xmin))) := by
  refine ⟨rfl, ?_⟩
  have hlt := face_indices_lt mesh f hf
  have hnot : ¬ (mesh.number_of_faces + edges.length ≤ face_indices mesh f
      ∧ face_indices mesh f < mesh.number_of_faces + edges.length + edges.length) := by omega
  rw [optimize_objective_coefficient, if_neg hnot, objective_faces_coefficient_face mesh f hf]
  unfold face_terms coeff_data_fitting coeff_coverage box_area
  rw [total_faces_eq]
  simp only []
  ring

/-- Witness for C4: face 0 of `two_triangles`, with 3 of the 4 supporting faces,
uncovered area 1 and a bounding box of surface area 78. -/
theorem optimize_face_objective_witness :
    (0 : Face) ∈ two_triangles.faces
      ∧ coefficient (optimize_program two_triangles one_shared_edge).objective.coefficients
          (face_indices two_triangles 0)
        = -(43 / 100) * 3 / 4 + (27 / 100) * 1 / 78 := by
  refine ⟨by decide, ?_⟩
  have h := (optimize_face_objective two_triangles one_shared_edge 0 (by decide)).2
  rw [h]
  simp [two_triangles, wt_fitting, wt_coverage]
  norm_num

/-- C5 (the code departs from the claim). On the two-triangle mesh with one
shared edge, the edge's "used" variable is variable 2: it has coefficient -2 in
the edge's constraint and no objective coefficient. The complexity coefficient
3/10 sits on variable 3, which does not occur in the constraint. -/
theorem optimize_complexity_variable_mismatch :
    coefficient (optimize_program two_triangles one_shared_edge).objective.coefficients 2 = 0
      ∧ coefficient (optimize_program two_triangles one_shared_edge).objective.coefficients 3
          = 3 / 10
      ∧ ∃ c, (optimize_program two_triangles one_shared_edge).constraints = [c]
          ∧ coefficient c.coefficients 2 = -2 ∧ coefficient c.coefficients 3 = 0 := by
  have hn : two_triangles.number_of_faces = 2 := rfl
  have hlen : one_shared_edge.length = 1 := rfl
  have h0 := two_triangles_face_indices.1
  have h1 := two_triangles_face_indices.2
  refine ⟨?_, ?_, ?_⟩
  · rw [optimize_objective_coefficient,
      objective_faces_coefficient_other two_triangles 2 (by rw [hn])]
    simp [hn, hlen]
  · rw [optimize_objective_coefficient,
      objective_faces_coefficient_other two_triangles 3 (by rw [hn]; omega)]
    simp [hn, hlen, coeff_complexity, wt_complexity]
    norm_num
  · refine ⟨edge_constraint 2 (face_indices two_triangles) ⟨[0, 1]⟩ 0, rfl, ?_, ?_⟩
    · rw [edge_constraint_coefficient]
      simp [h0, h1, List.filter_cons]
    · rw [edge_constraint_coefficient]
      simp [h0, h1, List.filter_cons]

/-- C6, counterexample. With a shared edge followed by a dangling edge, one
edge has a fan of size at least 2, yet the complexity coefficient is
`w_cx / 2`, not `w_cx / 1`, and it is added for both edges: the two variables
4 and 5 each carry 3/20. -/
theorem complexity_coefficient_counterexample :
    num_qualifying shared_then_dangling = 1
      ∧ coeff_complexity shared_then_dangling
          ≠ wt_complexity / (num_qualifying shared_then_dangling : ℚ)
      ∧ coefficient (optimize_program two_triangles shared_then_dangling).objective.coefficients 4
          = 3 / 20
      ∧ coefficient (optimize_program two_triangles shared_then_dangling).objective.coefficients 5
          = 3 / 20 := by
  have hn : two_triangles.number_of_faces = 2 := rfl
  have hlen : shared_then_dangling.length = 2 := rfl
  have hq : num_qualifying shared_then_dangling = 1 := rfl
  refine ⟨hq, ?_, ?_, ?_⟩
  · rw [hq]
    simp [coeff_complexity, hlen, wt_complexity]
    norm_num
  · rw [optimize_objective_coefficient,
      objective_faces_coefficient_other two_triangles 4 (by rw [hn]; omega)]
    simp [hn, hlen, coeff_complexity, wt_complexity]
    norm_num
  · rw [optimize_objective_coefficient,
      objective_faces_coefficient_other two_triangles 5 (by rw [hn]; omega)]
    simp [hn, hlen, coeff_complexity, wt_complexity]
    norm_num

/-- C6, amended. The complexity coefficient used by `optimize` is
`w_cx / num_edges` where `num_edges` is the number of all intersection edges
passed in, and it is added exactly once for every intersection edge, whatever
its fan size: each edge position has a variable of its own that carries exactly
one such coefficient, and no other variable beyond the face variables carries
any objective coefficient. -/
theorem optimize_complexity_coefficient (mesh : Mesh) (edges : List Plane_intersection) :
    coeff_complexity edges = wt_complexity / (edges.length : ℚ)
      ∧ (∀ i, i < edges.length →
          coefficient (optimize_program mesh edges).objective.coefficients
              (mesh.number_of_faces + edges.length + i)
            = wt_complexity / (edges.length : ℚ))
      ∧ ∀ j, mesh.number_of_faces ≤ j →
          ¬ (mesh.number_of_faces + edges.length ≤ j
              ∧ j < mesh.number_of_faces + edges.length + edges.length) →
          coefficient (optimize_program mesh edges).objective.coefficients j = 0 := by
  refine ⟨rfl, ?_, ?_⟩
  · intro i hi
    have hin : mesh.number_of_faces + edges.length ≤ mesh.number_of_faces + edges.length + i
        ∧ mesh.number_of_faces + edges.length + i
            < mesh.number_of_faces + edges.length + edges.length := by omega
    rw [optimize_objective_coefficient, if_pos hin,
      objective_faces_coefficient_other mesh _ (by omega)]
    simp [coeff_complexity]
  · intro j hj hout
    rw [optimize_objective_coefficient, if_neg hout,
      objective_faces_coefficient_other mesh j hj]
    simp

/-- Witness for amended C6: the dangling second edge of `shared_then_dangling`
receives the coefficient `w_cx / 2` like the first. -/
theorem optimize_complexity_coefficient_witness :
    coefficient (optimize_program two_triangles shared_then_dangling).objective.coefficients
        (two_triangles.number_of_faces + shared_then_dangling.length + 1)
      = wt_complexity / (shared_then_dangling.length : ℚ) :=
  (optimize_complexity_coefficient two_triangles shared_then_dangling).2.1 1 (by decide)

/-! ## Claims on the variables and the result -/

/-- C7, counterexample. For the two-triangle mesh with one shared edge the
program has 4 variables, not `2 + 1`. -/
theorem variable_count_counterexample :
    (optimize_program two_triangles one_shared_edge).variables_.length
      ≠ two_triangles.number_of_faces + num_qualifying one_shared_edge := by
  rw [optimize_program_variables_length]
  decide

/-- C7, amended. The program built by `optimize` has
`num_faces + 2 * num_edges` variables, where `num_edges` is the number of all
intersection edges passed in, and every one of them is of type binary. -/
theorem optimize_variables (mesh : Mesh) (edges : List Plane_intersection) :
    (optimize_program mesh edges).variables_.length
        = mesh.number_of_faces + 2 * edges.length
      ∧ ∀ v ∈ (optimize_program mesh edges).variables_, v = VariableType.BINARY := by
  constructor
  · rw [optimize_program_variables_length]
    unfold total_variables
    omega
  · intro v hv
    exact binary_variables_all _ v hv

/-- C8. `optimize` returns the empty vector whenever the solver reports
failure, and exactly the solver's solution vector for the program it built
whenever the solver reports success. -/
theorem optimize_result (solver : LinearProgramSolver) (mesh : Mesh)
    (edges : List Plane_intersection) (solver_name : SolverName) :
    (solver.solve (optimize_program mesh edges) solver_name = false →
        optimize solver mesh edges solver_name = [])
      ∧ (solver.solve (optimize_program mesh edges) solver_name = true →
        optimize solver mesh edges solver_name
          = solver.solution (optimize_program mesh edges) solver_name) := by
  constructor
  · intro h
    simp [optimize, h]
  · intro h
    simp [optimize, h]

/-- Witness for C8: a failing solver holding a stale vector yields the empty
result; a succeeding solver's vector is returned as it is. -/
theorem optimize_result_witness :
    optimize failing_solver two_triangles one_shared_edge SolverName.SCIP = []
      ∧ optimize succeeding_solver two_triangles one_shared_edge SolverName.SCIP
          = [1, 1, 1, 1] :=
  ⟨(optimize_result failing_solver two_triangles one_shared_edge SolverName.SCIP).1 rfl,
    ((optimize_result succeeding_solver two_triangles one_shared_edge SolverName.SCIP).2
      rfl).trans (by
        have h := optimize_program_variables_length two_triangles one_shared_edge
        simp only [succeeding_solver, h]
        rfl)⟩

/-! ## Lemmas on the planarity passes -/

theorem loop_count_small (n : Nat) (h : n < 2 ^ 31) : loop_count n = n := by
  unfold loop_count to_int
  have h1 : n % 2 ^ 32 = n := Nat.mod_eq_of_lt (by omega)
  rw [h1, if_pos h]
  simp

theorem loop_count_wrapped : loop_count (2 ^ 31) = 0 := by
  unfold loop_count to_int
  norm_num

theorem update_fold {K V : Type} [DecidableEq K] (g : K → V) (l : List K) (pm : K → V) (a : K) :
    (l.foldl (fun pm v => Function.update pm v (g v)) pm) a = if a ∈ l then g a else pm a := by
  induction l generalizing pm with
  | nil => simp
  | cons b t ih =>
    rw [List.foldl_cons, ih]
    by_cases hat : a ∈ t
    · simp [hat]
    · by_cases hab : a = b
      · subst hab
        simp [hat]
      · simp [hat, hab, Function.update_noteq hab]

theorem compute_eq (fit : List Point_3 → ℚ) (mesh : Mesh) (k : Nat) :
    Planarity.compute fit mesh k
      = some { mesh with
          v_planarity := some (Planarity.vertex_pass fit mesh k)
          f_planarity := some
            ((mesh.faces.take (loop_count mesh.faces.length)).foldl
              (fun fp face => Function.update fp face
                (Planarity.face_score
                  { mesh with v_planarity := some (Planarity.vertex_pass fit mesh k) }
                  (Planarity.vertex_pass fit mesh k) face))
              (add_property_map mesh.f_planarity 0)) } := by
  rfl

/-! ## Claims on the planarity estimator -/

/-- Below 2^31 vertices the first pass of `Planarity::compute` writes the slot
of every vertex with the value of the fitting primitive on the positions of
its k-ring, so no vertex keeps -9999 when the primitive never returns it. -/
theorem vertex_pass_writes_all (fit : List Point_3 → ℚ) (mesh : Mesh) (k : Nat)
    (hsize : mesh.vertices.length < 2 ^ 31) :
    ∃ m vp, Planarity.compute fit mesh k = some m
      ∧ m.v_planarity = some vp
      ∧ (∀ v ∈ mesh.vertices,
          vp v = fit ((mesh.get_k_ring_vertices v k).map mesh.points))
      ∧ ((∀ pts, fit pts ≠ -9999) → ∀ v ∈ mesh.vertices, vp v ≠ -9999) := by
  have hv : ∀ v ∈ mesh.vertices, Planarity.vertex_pass fit mesh k v
      = fit ((mesh.get_k_ring_vertices v k).map mesh.points) := by
    intro v hv
    unfold Planarity.vertex_pass
    rw [loop_count_small _ hsize, List.take_length, update_fold, if_pos hv]
    rfl
  refine ⟨_, _, compute_eq fit mesh k, rfl, hv, ?_⟩
  intro hfit v hvm
  rw [hv v hvm]
  exact hfit _

/-- C10, the code at the failing input. On the mesh `isolated_vertices`, which
has 2^31 vertices, the loop bound `(int)verts.size()` of line 38 is negative,
the loop body never runs and `Planarity::compute` leaves every vertex with the
sentinel -9999, vertex 0 among them, although the fitting primitive never
returns -9999 and its value on the 3-ring of vertex 0 is 1. -/
theorem compute_vertex_planarity_skipped :
    ∃ m vp, Planarity.compute count_fit isolated_vertices 3 = some m
      ∧ m.v_planarity = some vp
      ∧ isolated_vertices.vertices.length = 2 ^ 31
      ∧ (0 : Vertex) ∈ isolated_vertices.vertices
      ∧ (∀ pts, count_fit pts ≠ -9999)
      ∧ count_fit ((isolated_vertices.get_k_ring_vertices 0 3).map isolated_vertices.points) = 1
      ∧ ∀ v, vp v = -9999 := by
  have hvlen : isolated_vertices.vertices.length = 2 ^ 31 := by
    simp [isolated_vertices]
  have hnone : isolated_vertices.v_planarity = none := rfl
  have hring : isolated_vertices.get_k_ring_vertices 0 3 = [0] := rfl
  refine ⟨_, _, compute_eq count_fit isolated_vertices 3, rfl, hvlen, ?_, ?_, ?_, ?_⟩
  · simp [isolated_vertices]
  · intro pts h
    unfold count_fit at h
    have h2 : (0 : ℚ) ≤ (pts.length : ℚ) := Nat.cast_nonneg _
    rw [h] at h2
    norm_num at h2
  · rw [hring]
    simp [count_fit]
  · intro v
    unfold Planarity.vertex_pass
    simp only [hvlen, loop_count_wrapped, hnone]
    rfl

/-! ## Lemmas on the chart views -/

theorem mem_set_insert (s : List Face) (f a : Face) :
    a ∈ set_insert s f ↔ a = f ∨ a ∈ s := by
  induction s with
  | nil => simp [set_insert]
  | cons g rest ih =>
    unfold set_insert
    by_cases h1 : f < g
    · simp [h1]
    · by_cases h2 : f = g
      · subst h2
        simp
      · simp only [h1, h2, if_false, List.mem_cons, ih]
        tauto

theorem set_insert_sorted (s : List Face) (f : Face) (hs : s.Pairwise (· < ·)) :
    (set_insert s f).Pairwise (· < ·) := by
  induction s with
  | nil => simp [set_insert]
  | cons g rest ih =>
    rw [List.pairwise_cons] at hs
    unfold set_insert
    by_cases h1 : f < g
    · simp only [h1, if_true, List.pairwise_cons]
      refine ⟨?_, hs.1, hs.2⟩
      intro a ha
      rcases List.mem_cons.mp ha with h | h
      · rw [h]
        exact h1
      · exact lt_trans h1 (hs.1 a h)
    · by_cases h2 : f = g
      · subst h2
        simp only [lt_irrefl, if_false, if_true, List.pairwise_cons]
        exact ⟨hs.1, hs.2⟩
      · simp only [h1, h2, if_false, List.pairwise_cons]
        refine ⟨?_, ih hs.2⟩
        intro a ha
        rcases (mem_set_insert rest f a).mp ha with h | h
        · rw [h]
          exact lt_of_le_of_ne (not_lt.mp h1) (fun h3 => h2 h3.symm)
        · exact hs.1 a h

theorem select_fold_mem (mesh : Mesh) (id : Nat) (l : List Face) (acc : List Face) (a : Face) :
    a ∈ l.foldl
        (fun segment face =>
          if to_unsigned (mesh.chart face) = id then set_insert segment face else segment)
        acc
      ↔ a ∈ acc ∨ (a ∈ l ∧ to_unsigned (mesh.chart a) = id) := by
  induction l generalizing acc with
  | nil => simp
  | cons g t ih =>
    rw [List.foldl_cons, ih]
    by_cases h : to_unsigned (mesh.chart g) = id
    · simp only [h, if_true, mem_set_insert, List.mem_cons]
      constructor
      · rintro ((h1 | h1) | h1)
        · right
          exact ⟨Or.inl h1, by rw [h1]; exact h⟩
        · left
          exact h1
        · right
          exact ⟨Or.inr h1.1, h1.2⟩
      · rintro (h1 | ⟨h1 | h1, h2⟩)
        · left
          right
          exact h1
        · left
          left
          exact h1
        · right
          exact ⟨h1, h2⟩
    · simp only [h, if_false, List.mem_cons]
      constructor
      · rintro (h1 | h1)
        · left
          exact h1
        · right
          exact ⟨Or.inr h1.1, h1.2⟩
      · rintro (h1 | ⟨h1 | h1, h2⟩)
        · left
          exact h1
        · rw [h1] at h2
          exact absurd h2 h
        · right
          exact ⟨h1, h2⟩

theorem select_fold_sorted (mesh : Mesh) (id : Nat) (l : List Face) (acc : List Face)
    (hacc : acc.Pairwise (· < ·)) :
    (l.foldl
        (fun segment face =>
          if to_unsigned (mesh.chart face) = id then set_insert segment face else segment)
        acc).Pairwise (· < ·) := by
  induction l generalizing acc with
  | nil => simpa using hacc
  | cons g t ih =>
    rw [List.foldl_cons]
    apply ih
    by_cases h : to_unsigned (mesh.chart g) = id
    · simp only [h, if_true]
      exact set_insert_sorted acc g hacc
    · simp only [h, if_false]
      exact hacc

theorem mem_select_segment (mesh : Mesh) (id : Nat) (a : Face) :
    a ∈ select_segment mesh id ↔ a ∈ mesh.faces ∧ to_unsigned (mesh.chart a) = id := by
  unfold select_segment
  rw [select_fold_mem]
  simp

theorem select_segment_sorted (mesh : Mesh) (id : Nat) :
    (select_segment mesh id).Pairwise (· < ·) := by
  unfold select_segment
  exact select_fold_sorted mesh id mesh.faces [] List.Pairwise.nil

theorem to_unsigned_of_nonneg (c : Int) (h : 0 ≤ c) : to_unsigned c ≤ c.toNat := by
  unfold to_unsigned
  omega

theorem max_element_fold (pl : Face → ℚ) (largest : Face) (rest : List Face)
    (hs : (largest :: rest).Pairwise (· < ·)) :
    rest.foldl (fun largest x => if decide (pl largest < pl x) then x else largest) largest
        ∈ largest :: rest
      ∧ (∀ x ∈ largest :: rest,
          pl x ≤ pl (rest.foldl
            (fun largest x => if decide (pl largest < pl x) then x else largest) largest))
      ∧ ∀ x ∈ largest :: rest,
          pl x = pl (rest.foldl
            (fun largest x => if decide (pl largest < pl x) then x else largest) largest) →
          rest.foldl (fun largest x => if decide (pl largest < pl x) then x else largest) largest
            ≤ x := by
  induction rest generalizing largest with
  | nil => simp
  | cons y ys ih =>
    rw [List.pairwise_cons] at hs
    have hy : largest < y := hs.1 y (List.mem_cons_self _ _)
    rw [List.foldl_cons]
    by_cases hlt : pl largest < pl y
    · simp only [hlt, decide_True, if_true]
      obtain ⟨h1, h2, h3⟩ := ih y hs.2
      have hyr := h2 y (List.mem_cons_self _ _)
      refine ⟨List.mem_cons_of_mem _ h1, ?_, ?_⟩
      · intro x hx
        rcases List.mem_cons.mp hx with h | h
        · rw [h]
          exact le_of_lt (lt_of_lt_of_le hlt hyr)
        · exact h2 x h
      · intro x hx hxe
        rcases List.mem_cons.mp hx with h | h
        · rw [h] at hxe
          rw [hxe] at hlt
          exact absurd hyr (not_le.mpr hlt)
        · exact h3 x h hxe
    · simp only [hlt, decide_False, if_false, Bool.false_eq_true]
      have hsub : (largest :: ys).Pairwise (· < ·) := by
        rw [List.pairwise_cons]
        rw [List.pairwise_cons] at hs
        exact ⟨fun a ha => hs.1 a (List.mem_cons_of_mem _ ha), hs.2.2⟩
      obtain ⟨h1, h2, h3⟩ := ih largest hsub
      have hlr := h2 largest (List.mem_cons_self _ _)
      refine ⟨?_, ?_, ?_⟩
      · rcases List.mem_cons.mp h1 with h | h
        · rw [h]
          exact List.mem_cons_self _ _
        · exact List.mem_cons_of_mem _ (List.mem_cons_of_mem _ h)
      · intro x hx
        rcases List.mem_cons.mp hx with h | h
        · rw [h]
          exact hlr
        · rcases List.mem_cons.mp h with h' | h'
          · rw [h']
            exact le_trans (not_lt.mp hlt) hlr
          · exact h2 x (List.mem_cons_of_mem _ h')
      · intro x hx hxe
        rcases List.mem_cons.mp hx with h | h
        · rw [h] at hxe ⊢
          exact h3 largest (List.mem_cons_self _ _) hxe
        · rcases List.mem_cons.mp h with h' | h'
          · rw [h'] at hxe ⊢
            have heq : pl largest
                = pl (ys.foldl
                    (fun largest x => if decide (pl largest < pl x) then x else largest)
                    largest) :=
              le_antisymm hlr (hxe ▸ not_lt.mp hlt)
            exact le_trans (h3 largest (List.mem_cons_self _ _) heq) (le_of_lt hy)
          · exact h3 x (List.mem_cons_of_mem _ h') hxe

/-! ## Claims on the chart views -/

/-- C11. Charts seen through `select_segment` partition the faces: for all ids
`a ≠ b` no face is in both `select_segment(mesh, a)` and
`select_segment(mesh, b)`, and if every face has a chart id in `[0, n)` then the
faces of the mesh are exactly the faces of `select_segment(mesh, i)` for `i`
in `[0, n)`. -/
theorem select_segment_partition (mesh : Mesh) :
    (∀ a b : Nat, a ≠ b → ∀ f, f ∈ select_segment mesh a → f ∉ select_segment mesh b)
      ∧ ∀ n : Nat, (∀ f ∈ mesh.faces, 0 ≤ mesh.chart f ∧ mesh.chart f < (n : Int)) →
          ∀ f, f ∈ mesh.faces ↔ ∃ i, i < n ∧ f ∈ select_segment mesh i := by
  constructor
  · intro a b hab f ha hb
    rw [mem_select_segment] at ha hb
    exact hab (ha.2.symm.trans hb.2)
  · intro n hn f
    constructor
    · intro hf
      refine ⟨to_unsigned (mesh.chart f), ?_, (mem_select_segment mesh _ f).mpr ⟨hf, rfl⟩⟩
      have h0 := (hn f hf).1
      have h1 := to_unsigned_of_nonneg (mesh.chart f) h0
      have h2 := (hn f hf).2
      omega
    · rintro ⟨i, _, hi⟩
      exact ((mem_select_segment mesh i f).mp hi).1

/-- Witness for C11: the two charts of `two_charts` are disjoint and cover its faces. -/
theorem select_segment_partition_witness :
    (∀ f, f ∈ select_segment two_charts 0 → f ∉ select_segment two_charts 1)
      ∧ ∀ f, f ∈ two_charts.faces ↔ ∃ i, i < 2 ∧ f ∈ select_segment two_charts i := by
  have h := select_segment_partition two_charts
  refine ⟨h.1 0 1 (by decide), h.2 2 ?_⟩
  intro f hf
  have hf2 : f = 0 ∨ f = 1 := by simpa [two_charts, two_triangles] using hf
  rcases hf2 with h0 | h1
  · subst h0
    simp [two_charts]
  · subst h1
    simp [two_charts]

/-- C12. For every chart id whose chart, as `select_segment` returns it, has at
least one face, `compute_segment_orientation` returns the normal of a face `f*`
of that chart whose planarity is at least the planarity of every face of the
chart; among the faces of that largest planarity `f*` is the first in face
order, i.e. the one of smallest face index. -/
theorem segment_orientation_most_planar (compute_face_normal : Face → Vector_3) (mesh : Mesh)
    (id : Nat) (pl : Face → ℚ) (hpl : mesh.f_planarity = some pl)
    (hne : select_segment mesh id ≠ []) :
    ∃ fstar, fstar ∈ select_segment mesh id
      ∧ compute_segment_orientation compute_face_normal mesh id
          = some (compute_face_normal fstar)
      ∧ (∀ f ∈ select_segment mesh id, pl f ≤ pl fstar)
      ∧ ∀ f ∈ select_segment mesh id, pl f = pl fstar → fstar ≤ f := by
  have hsorted := select_segment_sorted mesh id
  unfold compute_segment_orientation
  simp only [hpl]
  match hseg : select_segment mesh id with
  | [] => exact absurd hseg hne
  | first :: rest =>
    rw [hseg] at hsorted
    obtain ⟨h1, h2, h3⟩ := max_element_fold pl first rest hsorted
    exact ⟨_, h1, rfl, h2, h3⟩

/-- Witness for C12: in `one_chart` the faces 5 and 7 share the largest
planarity of chart 3, and the orientation is the normal of face 5. -/
theorem segment_orientation_most_planar_witness :
    select_segment one_chart 3 = [2, 5, 7, 9]
      ∧ compute_segment_orientation index_normal one_chart 3 = some (index_normal 5) := by
  have hseg : select_segment one_chart 3 = [2, 5, 7, 9] := by decide
  refine ⟨hseg, ?_⟩
  obtain ⟨fstar, hmem, hres, hmax, hfirst⟩ :=
    segment_orientation_most_planar index_normal one_chart 3
      (fun f => if f = 5 ∨ f = 7 then 4 else 1) rfl (by rw [hseg]; simp)
  rw [hseg] at hmem hmax hfirst
  have h5 := hmax 5 (by simp)
  have h5f := hfirst 5 (by simp)
  have hcases : fstar = 2 ∨ fstar = 5 ∨ fstar = 7 ∨ fstar = 9 := by simpa using hmem
  rcases hcases with h | h | h | h
  · subst h
    norm_num at h5
  · subst h
    exact hres
  · subst h
    norm_num at h5f
  · subst h
    norm_num at h5

/-! ## Claims on the command-line run -/

theorem keys_add_coefficient (e : Coefficients) (i : Nat) (c : ℚ) :
    keys (add_coefficient e i c) = if i ∈ keys e then keys e else keys e ++ [i] := by
  induction e with
  | nil => simp [add_coefficient, keys]
  | cons hd tl ih =>
    obtain ⟨j, d⟩ := hd
    by_cases h : j = i
    · subst h
      simp [add_coefficient, keys]
    · have hij : ¬ i = j := fun h2 => h h2.symm
      unfold keys at ih ⊢
      simp only [add_coefficient, h, if_false, List.map_cons, List.mem_cons, hij, false_or, ih]
      split <;> simp

theorem mem_keys_add_coefficient (e : Coefficients) (i : Nat) (c : ℚ) (j : Nat) :
    j ∈ keys (add_coefficient e i c) ↔ j = i ∨ j ∈ keys e := by
  rw [keys_add_coefficient]
  by_cases h : i ∈ keys e
  · rw [if_pos h]
    constructor
    · intro hj
      exact Or.inr hj
    · rintro (hj | hj)
      · rw [hj]
        exact h
      · exact hj
  · rw [if_neg h]
    simp only [List.mem_append, List.mem_singleton]
    tauto

theorem add_coefficient_fresh (e : Coefficients) (i : Nat) (c : ℚ) (h : i ∉ keys e) :
    add_coefficient e i c = e ++ [(i, c)] := by
  induction e with
  | nil => simp [add_coefficient]
  | cons hd tl ih =>
    obtain ⟨j, d⟩ := hd
    have hji : ¬ j = i := by
      intro h2
      apply h
      simp [keys, h2]
    have hi : i ∉ keys tl := by
      intro h2
      apply h
      unfold keys at h2 ⊢
      exact List.mem_cons_of_mem _ h2
    simp [add_coefficient, hji, ih hi]

theorem evaluate_append (a b : Coefficients) (x : Nat → ℚ) :
    evaluate (a ++ b) x = evaluate a x + evaluate b x := by
  induction a with
  | nil => simp [evaluate]
  | cons hd tl ih =>
    obtain ⟨j, d⟩ := hd
    simp [evaluate, ih]
    ring

theorem evaluate_congr (e : Coefficients) (x y : Nat → ℚ) (h : ∀ j ∈ keys e, x j = y j) :
    evaluate e x = evaluate e y := by
  induction e with
  | nil => simp [evaluate]
  | cons hd tl ih =>
    obtain ⟨j, d⟩ := hd
    have hj : x j = y j := h j (by simp [keys])
    have ht : ∀ k ∈ keys tl, x k = y k := by
      intro k hk
      apply h
      unfold keys at hk ⊢
      exact List.mem_cons_of_mem _ hk
    simp [evaluate, hj, ih ht]

theorem coefficient_of_not_mem (e : Coefficients) (j : Nat) (h : j ∉ keys e) :
    coefficient e j = 0 := by
  induction e with
  | nil => simp [coefficient]
  | cons hd tl ih =>
    obtain ⟨k, d⟩ := hd
    have hkj : ¬ k = j := by
      intro h2
      apply h
      simp [keys, h2]
    have ht : j ∉ keys tl := by
      intro h2
      apply h
      unfold keys at h2 ⊢
      exact List.mem_cons_of_mem _ h2
    simp [coefficient, hkj, ih ht]

theorem keys_objective_face_step (mesh : Mesh) (obj : Coefficients) (f : Face) (j : Nat) :
    j ∈ keys (objective_face_step mesh obj f) ↔ j = face_indices mesh f ∨ j ∈ keys obj := by
  unfold objective_face_step
  simp only [mem_keys_add_coefficient]
  tauto

theorem keys_objective_fold (mesh : Mesh) (l : List Face) (obj : Coefficients) (j : Nat) :
    j ∈ keys (l.foldl (objective_face_step mesh) obj)
      ↔ j ∈ keys obj ∨ ∃ f ∈ l, j = face_indices mesh f := by
  induction l generalizing obj with
  | nil => simp
  | cons a t ih =>
    rw [List.foldl_cons, ih, keys_objective_face_step]
    simp only [List.mem_cons, exists_eq_or_imp]
    tauto

theorem keys_objective_faces (mesh : Mesh) (j : Nat) :
    j ∈ keys (objective_faces mesh) ↔ ∃ f ∈ mesh.faces, j = face_indices mesh f := by
  unfold objective_faces
  rw [keys_objective_fold]
  simp [keys]

theorem keys_objective_faces_lt (mesh : Mesh) (j : Nat) (hj : j ∈ keys (objective_faces mesh)) :
    j < mesh.number_of_faces := by
  obtain ⟨f, hf, hjf⟩ := (keys_objective_faces mesh j).mp hj
  rw [hjf]
  exact face_indices_lt mesh f hf

theorem objective_complexity_append (num_faces num_edges : Nat) (coeff : ℚ)
    (edges : List Plane_intersection) (s : Nat) (obj : Coefficients)
    (h : ∀ j ∈ keys obj, j < num_faces + num_edges + s) :
    objective_complexity num_faces num_edges coeff edges s obj
      = obj ++ (List.range edges.length).map
          (fun t => (num_faces + num_edges + s + t, coeff)) := by
  induction edges generalizing s obj with
  | nil => simp [objective_complexity]
  | cons e t ih =>
    have hfresh : num_faces + num_edges + s ∉ keys obj := by
      intro hmem
      have := h _ hmem
      omega
    have hnext : ∀ j ∈ keys (add_coefficient obj (num_faces + num_edges + s) coeff),
        j < num_faces + num_edges + (s + 1) := by
      intro j hj
      rcases (mem_keys_add_coefficient _ _ _ _).mp hj with h1 | h1
      · omega
      · have := h j h1
        omega
    simp only [objective_complexity]
    rw [ih (s + 1) _ hnext, add_coefficient_fresh _ _ _ hfresh]
    simp only [List.length_cons, List.range_succ_eq_map, List.map_cons, List.map_map,
      List.append_assoc, List.singleton_append]
    congr 2
    apply List.map_congr_left
    intro a _
    simp only [Function.comp]
    congr 1
    omega

theorem optimize_objective_table (mesh : Mesh) (edges : List Plane_intersection) :
    (optimize_program mesh edges).objective.coefficients
      = objective_faces mesh ++ (List.range edges.length).map
          (fun t => (mesh.number_of_faces + edges.length + t, coeff_complexity edges)) := by
  have h := objective_complexity_append mesh.number_of_faces edges.length
    (coeff_complexity edges) edges 0 (objective_faces mesh)
    (fun j hj => by
      have := keys_objective_faces_lt mesh j hj
      omega)
  simpa [optimize_program] using h

theorem keys_optimize_objective (mesh : Mesh) (edges : List Plane_intersection) (j : Nat) :
    j ∈ keys (optimize_program mesh edges).objective.coefficients
      ↔ j ∈ keys (objective_faces mesh)
        ∨ (mesh.number_of_faces + edges.length ≤ j
            ∧ j < mesh.number_of_faces + edges.length + edges.length) := by
  rw [optimize_objective_table]
  unfold keys
  simp only [List.map_append, List.mem_append, List.map_map, List.mem_map, List.mem_range,
    Function.comp]
  constructor
  · rintro (h | ⟨t, ht, hjt⟩)
    · exact Or.inl h
    · right
      omega
  · rintro (h | ⟨h1, h2⟩)
    · exact Or.inl h
    · right
      exact ⟨j - (mesh.number_of_faces + edges.length), by omega, by omega⟩

theorem keys_fan_coefficients (fi : Face → Nat) (fan : List Face) (c : LinearConstraint)
    (j : Nat) :
    j ∈ keys (fan_coefficients fi fan c).coefficients
      ↔ j ∈ keys c.coefficients ∨ ∃ f ∈ fan, j = fi f := by
  induction fan generalizing c with
  | nil => simp [fan_coefficients]
  | cons a t ih =>
    have h := ih { c with coefficients := add_coefficient c.coefficients (fi a) 1 }
    simp only [fan_coefficients, List.foldl_cons] at h ⊢
    rw [h, mem_keys_add_coefficient]
    simp only [List.mem_cons, exists_eq_or_imp]
    tauto

theorem keys_edge_constraint (num_faces : Nat) (fi : Face → Nat) (e : Plane_intersection)
    (k j : Nat) :
    j ∈ keys (edge_constraint num_faces fi e k).coefficients
      ↔ (∃ f ∈ e.fan, j = fi f) ∨ (2 ≤ e.fan.length ∧ j = num_faces + k) := by
  have h := keys_fan_coefficients fi e.fan (create_constraint BoundType.FIXED 0 0) j
  have hempty : j ∉ keys (create_constraint BoundType.FIXED 0 0).coefficients := by
    simp [create_constraint, keys]
  have hfan : j ∈ keys (fan_coefficients fi e.fan
      (create_constraint BoundType.FIXED 0 0)).coefficients ↔ ∃ f ∈ e.fan, j = fi f := by
    rw [h]
    constructor
    · rintro (h1 | h1)
      · exact absurd h1 hempty
      · exact h1
    · intro h1
      exact Or.inr h1
  unfold edge_constraint
  split
  · rename_i h2
    simp only [mem_keys_add_coefficient, hfan]
    constructor
    · rintro (h1 | h1)
      · exact Or.inr ⟨h2, h1⟩
      · exact Or.inl h1
    · rintro (h1 | h1)
      · exact Or.inr h1
      · exact Or.inl h1.2
  · rename_i h2
    rw [hfan]
    constructor
    · intro h1
      exact Or.inl h1
    · rintro (h1 | h1)
      · exact h1
      · exact absurd h1.1 h2

theorem auxiliary_of_edge_constraint (num_faces : Nat) (fi : Face → Nat)
    (e : Plane_intersection) (k : Nat) (hfan : ∀ f ∈ e.fan, fi f < num_faces) :
    (keys (edge_constraint num_faces fi e k).coefficients).filter
        (fun j => decide (num_faces ≤ j))
      = if 2 ≤ e.fan.length then [num_faces + k] else [] := by
  have hk : ∀ j ∈ keys (fan_coefficients fi e.fan
      (create_constraint BoundType.FIXED 0 0)).coefficients, j < num_faces := by
    intro j hj
    rcases (keys_fan_coefficients fi e.fan _ j).mp hj with h | ⟨f, hf, hjf⟩
    · simp [create_constraint, keys] at h
    · rw [hjf]
      exact hfan f hf
  have hnil : (keys (fan_coefficients fi e.fan
      (create_constraint BoundType.FIXED 0 0)).coefficients).filter
        (fun j => decide (num_faces ≤ j)) = [] := by
    rw [List.filter_eq_nil_iff]
    intro j hj
    have := hk j hj
    simp only [decide_eq_true_eq]
    omega
  unfold edge_constraint
  split
  · have hfresh : num_faces + k ∉ keys (fan_coefficients fi e.fan
        (create_constraint BoundType.FIXED 0 0)).coefficients := by
      intro hmem
      have := hk _ hmem
      omega
    simp only [keys_add_coefficient, if_neg hfresh, List.filter_append, hnil, List.nil_append]
    simp
  · exact hnil

theorem mem_edge_constraints (num_faces : Nat) (fi : Face → Nat)
    (edges : List Plane_intersection) (k : Nat) (c : LinearConstraint)
    (hc : c ∈ edge_constraints num_faces fi edges k) :
    ∃ e ∈ edges, ∃ i, i < edges.length
      ∧ c = edge_constraint num_faces fi e (k + num_qualifying (edges.take i)) := by
  obtain ⟨i, hi, hget⟩ := List.mem_iff_getElem.mp hc
  have hlen : i < edges.length := by
    rw [edge_constraints_length] at hi
    exact hi
  have h := edge_constraints_getElem? num_faces fi edges k i
  rw [List.getElem?_eq_getElem hi, List.getElem?_eq_getElem hlen, hget] at h
  simp only [Option.map_some', Option.some.injEq] at h
  exact ⟨edges[i], List.getElem_mem hlen, i, hlen, h⟩

theorem auxiliary_of_edge_constraints (num_faces : Nat) (fi : Face → Nat)
    (edges : List Plane_intersection) (k : Nat)
    (hfan : ∀ e ∈ edges, ∀ f ∈ e.fan, fi f < num_faces) :
    auxiliary_variables num_faces (edge_constraints num_faces fi edges k)
      = (List.range (num_qualifying edges)).map (fun t => num_faces + k + t) := by
  induction edges generalizing k with
  | nil => simp [auxiliary_variables, edge_constraints, num_qualifying]
  | cons e t ih =>
    have ht : ∀ e' ∈ t, ∀ f ∈ e'.fan, fi f < num_faces :=
      fun e' he' => hfan e' (List.mem_cons_of_mem _ he')
    have he := auxiliary_of_edge_constraint num_faces fi e k
      (hfan e (List.mem_cons_self _ _))
    have hrest := ih (next_edge_used_idx e k) ht
    unfold auxiliary_variables at hrest ⊢
    simp only [edge_constraints, List.flatMap_cons, he, hrest]
    rw [num_qualifying_cons]
    unfold next_edge_used_idx
    by_cases h2 : 2 ≤ e.fan.length
    · simp only [h2, if_true]
      rw [Nat.add_comm 1 (num_qualifying t), List.range_succ_eq_map]
      simp only [List.map_cons, List.map_map, Nat.add_zero, List.singleton_append]
      congr 1
      apply List.map_congr_left
      intro a _
      simp only [Function.comp]
      omega
    · simp only [h2, if_false, List.nil_append, Nat.zero_add]

theorem num_qualifying_take_mono (edges : List Plane_intersection) (a b : Nat) (h : a ≤ b) :
    num_qualifying (edges.take a) ≤ num_qualifying (edges.take b) := by
  unfold num_qualifying
  exact ((List.take_sublist_take_left edges h).filter _).length_le

theorem num_qualifying_take_succ (edges : List Plane_intersection) (i : Nat)
    (hi : i < edges.length) (hq : 2 ≤ (edges.get ⟨i, hi⟩).fan.length) :
    num_qualifying (edges.take (i + 1)) = num_qualifying (edges.take i) + 1 := by
  unfold num_qualifying
  have hget : edges[i]? = some (edges.get ⟨i, hi⟩) := List.getElem?_eq_getElem hi
  rw [List.take_succ, hget, List.filter_append, List.length_append]
  have hone : (List.filter (fun e => decide (2 ≤ e.fan.length))
      (some (edges.get ⟨i, hi⟩)).toList).length = 1 := by
    have hq2 : 2 ≤ edges[i].fan.length := hq
    simp [List.filter_cons, hq2]
  rw [hone]

theorem keys_constraint_lt (mesh : Mesh) (edges : List Plane_intersection)
    (hfaces : ∀ e ∈ edges, ∀ f ∈ e.fan, f ∈ mesh.faces)
    (c : LinearConstraint) (hc : c ∈ (optimize_program mesh edges).constraints)
    (j : Nat) (hj : j ∈ keys c.coefficients) :
    j < mesh.number_of_faces + edges.length := by
  obtain ⟨e, he, i, hi, hce⟩ :=
    mem_edge_constraints mesh.number_of_faces (face_indices mesh) edges 0 c hc
  rw [hce] at hj
  rcases (keys_edge_constraint _ _ _ _ _).mp hj with ⟨f, hf, hjf⟩ | ⟨_, hjk⟩
  · have := face_indices_lt mesh f (hfaces e he f hf)
    omega
  · have := num_qualifying_take_le edges i
    omega

theorem evaluate_map_range (l : List Nat) (g : Nat → Nat) (c : ℚ) (x : Nat → ℚ) :
    evaluate (l.map (fun t => (g t, c))) x = (l.map (fun t => c * x (g t))).sum := by
  induction l with
  | nil => simp [evaluate]
  | cons a t ih => simp [evaluate, ih]

theorem evaluate_objective_split (mesh : Mesh) (edges : List Plane_intersection)
    (x : Nat → ℚ) :
    evaluate (optimize_program mesh edges).objective.coefficients x
      = evaluate (objective_faces mesh) x + complexity_term mesh edges x := by
  rw [optimize_objective_table, evaluate_append, evaluate_map_range]
  rfl

theorem evaluate_faces_clear (mesh : Mesh) (edges : List Plane_intersection) (x : Nat → ℚ) :
    evaluate (objective_faces mesh) (clear_second_block mesh edges x)
      = evaluate (objective_faces mesh) x := by
  apply evaluate_congr
  intro j hj
  have := keys_objective_faces_lt mesh j hj
  unfold clear_second_block
  rw [if_neg (by omega)]

theorem complexity_term_clear (mesh : Mesh) (edges : List Plane_intersection) (x : Nat → ℚ) :
    complexity_term mesh edges (clear_second_block mesh edges x) = 0 := by
  unfold complexity_term
  apply List.sum_eq_zero
  intro v hv
  simp only [List.mem_map, List.mem_range] at hv
  obtain ⟨t, ht, hvt⟩ := hv
  rw [← hvt]
  unfold clear_second_block
  rw [if_pos (by omega)]
  simp

theorem complexity_term_nonneg (mesh : Mesh) (edges : List Plane_intersection) (x : Nat → ℚ)
    (hx : ∀ t, t < edges.length → 0 ≤ x (mesh.number_of_faces + edges.length + t)) :
    0 ≤ complexity_term mesh edges x := by
  unfold complexity_term
  apply List.sum_nonneg
  intro v hv
  simp only [List.mem_map, List.mem_range] at hv
  obtain ⟨t, ht, hvt⟩ := hv
  rw [← hvt]
  apply mul_nonneg
  · unfold coeff_complexity wt_complexity
    positivity
  · exact hx t ht

theorem feasible_clear (mesh : Mesh) (edges : List Plane_intersection)
    (hfaces : ∀ e ∈ edges, ∀ f ∈ e.fan, f ∈ mesh.faces) (x : Nat → ℚ)
    (hx : (optimize_program mesh edges).feasible x) :
    (optimize_program mesh edges).feasible (clear_second_block mesh edges x) := by
  intro c hc
  have heq : evaluate c.coefficients (clear_second_block mesh edges x)
      = evaluate c.coefficients x := by
    apply evaluate_congr
    intro j hj
    have := keys_constraint_lt mesh edges hfaces c hc j hj
    unfold clear_second_block
    rw [if_neg (by omega)]
  have h := hx c hc
  unfold LinearConstraint.satisfied at h ⊢
  rw [heq]
  exact h

/-! ## Claims on the addressed variables and the normalisation -/

/-- C14 (the code departs from the claim). On the two-triangle mesh with one
shared edge, `optimize` reserves 4 variables and `num_faces + num_edges` is 3,
yet variable 3 receives an objective coefficient, the complexity coefficient
3/10. -/
theorem optimize_addresses_second_block :
    (optimize_program two_triangles one_shared_edge).variables_.length = 4
      ∧ two_triangles.number_of_faces + one_shared_edge.length = 3
      ∧ 3 ∈ keys (optimize_program two_triangles one_shared_edge).objective.coefficients
      ∧ coefficient (optimize_program two_triangles one_shared_edge).objective.coefficients 3
          = 3 / 10 := by
  have hn : two_triangles.number_of_faces = 2 := rfl
  have hlen : one_shared_edge.length = 1 := rfl
  refine ⟨?_, rfl, ?_, ?_⟩
  · rw [optimize_program_variables_length]
    rfl
  · rw [keys_optimize_objective, hn, hlen]
    right
    omega
  · rw [optimize_objective_coefficient,
      objective_faces_coefficient_other two_triangles 3 (by rw [hn]; omega)]
    simp [hn, hlen, coeff_complexity, wt_complexity]
    norm_num

/-- C15. The objective terms built by `optimize` are normalised: when the total
of `supporting_face_num` over all faces is positive, the data-fitting values
added for the faces sum to exactly `-w_fit`; when the edge list is non-empty,
the objective coefficients of all variables beyond the face variables, which
are the complexity coefficients, sum to exactly `w_cx`. Each face variable
carries its data-fitting value plus its coverage value. -/
theorem optimize_terms_normalised (mesh : Mesh) (edges : List Plane_intersection) :
    (0 < (mesh.faces.map (fun f => (mesh.supporting_face_num f : ℚ))).sum →
        (mesh.faces.map (data_fitting_term mesh)).sum = -wt_fitting)
      ∧ (edges ≠ [] →
          ((List.range (edges.length + edges.length)).map
              (fun t => coefficient (optimize_program mesh edges).objective.coefficients
                (mesh.number_of_faces + t))).sum = wt_complexity)
      ∧ ∀ f ∈ mesh.faces,
          coefficient (optimize_program mesh edges).objective.coefficients (face_indices mesh f)
            = data_fitting_term mesh f + coverage_term mesh f := by
  refine ⟨?_, ?_, ?_⟩
  · intro hpos
    have hsum : ∀ l : List Face, (l.map (data_fitting_term mesh)).sum
        = -(coeff_data_fitting mesh)
          * (l.map (fun f => (mesh.supporting_face_num f : ℚ))).sum := by
      intro l
      induction l with
      | nil => simp
      | cons a t ih =>
        simp only [List.map_cons, List.sum_cons, ih, data_fitting_term]
        ring
    rw [hsum]
    unfold coeff_data_fitting
    rw [total_faces_eq]
    field_simp
  · intro hne
    have hlen : (edges.length : ℚ) ≠ 0 := by
      have : edges.length ≠ 0 := fun h => hne (List.length_eq_zero.mp h)
      exact_mod_cast this
    have hterm : ∀ t, coefficient (optimize_program mesh edges).objective.coefficients
        (mesh.number_of_faces + t)
          = if edges.length ≤ t ∧ t < edges.length + edges.length
              then coeff_complexity edges else 0 := by
      intro t
      rw [optimize_objective_coefficient,
        objective_faces_coefficient_other mesh _ (by omega)]
      by_cases h : edges.length ≤ t ∧ t < edges.length + edges.length
      · rw [if_pos h, if_pos (by omega)]
        simp
      · rw [if_neg h, if_neg (by omega)]
        simp
    simp only [hterm]
    rw [List.range_add, List.map_append, List.sum_append, List.map_map]
    have hfirst : ((List.range edges.length).map
        (fun t => if edges.length ≤ t ∧ t < edges.length + edges.length
          then coeff_complexity edges else 0)).sum = 0 := by
      apply List.sum_eq_zero
      intro v hv
      simp only [List.mem_map, List.mem_range] at hv
      obtain ⟨t, ht, hvt⟩ := hv
      rw [← hvt, if_neg (by omega)]
    have hsecond : ((List.range edges.length).map
        ((fun t => if edges.length ≤ t ∧ t < edges.length + edges.length
          then coeff_complexity edges else 0) ∘ fun x => edges.length + x))
        = (List.range edges.length).map (fun _ => coeff_complexity edges) := by
      apply List.map_congr_left
      intro t ht
      rw [List.mem_range] at ht
      simp only [Function.comp]
      rw [if_pos (by omega)]
    rw [hfirst, hsecond]
    simp only [List.map_const', List.sum_replicate, List.length_range, zero_add, nsmul_eq_mul]
    unfold coeff_complexity
    field_simp
  · intro f hf
    have hlt := face_indices_lt mesh f hf
    rw [optimize_objective_coefficient, if_neg (by omega),
      objective_faces_coefficient_face mesh f hf]
    unfold face_terms data_fitting_term coverage_term
    ring

/-- Witness for C15: on `two_triangles` with one shared edge the data-fitting
values sum to `-w_fit` and the single complexity coefficient is `w_cx`. -/
theorem optimize_terms_normalised_witness :
    (two_triangles.faces.map (data_fitting_term two_triangles)).sum = -wt_fitting
      ∧ ((List.range (one_shared_edge.length + one_shared_edge.length)).map
            (fun t => coefficient
              (optimize_program two_triangles one_shared_edge).objective.coefficients
              (two_triangles.number_of_faces + t))).sum = wt_complexity := by
  have h := optimize_terms_normalised two_triangles one_shared_edge
  refine ⟨h.1 ?_, h.2.1 (by simp [one_shared_edge])⟩
  simp [two_triangles]
  norm_num

/-- C17. The per-vertex pass of `Planarity::compute` is order-independent: an
iteration writes only the slot of its own vertex, the vertices are pairwise
distinct, the written value does not depend on the planarity map, and running
the iterations of the pass in any permuted order gives the same map. -/
theorem vertex_pass_order_independent (fit : List Point_3 → ℚ) (mesh : Mesh) (k : Nat)
    (order : List Vertex)
    (hperm : order.Perm (mesh.vertices.take (loop_count mesh.vertices.length))) :
    (∀ (pm : Vertex → ℚ) (v a : Vertex), a ≠ v →
        Function.update pm v (Planarity.compute_k_ring_planarity fit mesh v k) a = pm a)
      ∧ mesh.vertices.Nodup
      ∧ (∀ (stored : Option (Vertex → ℚ)) (v : Vertex),
          Planarity.compute_k_ring_planarity fit { mesh with v_planarity := stored } v k
            = Planarity.compute_k_ring_planarity fit mesh v k)
      ∧ order.foldl
          (fun pm v => Function.update pm v (Planarity.compute_k_ring_planarity fit mesh v k))
          (add_property_map mesh.v_planarity (-9999))
        = Planarity.vertex_pass fit mesh k := by
  refine ⟨?_, mesh.vertices_nodup, ?_, ?_⟩
  · intro pm v a hav
    exact Function.update_noteq hav _ _
  · intro stored v
    rfl
  · funext a
    unfold Planarity.vertex_pass
    rw [update_fold, update_fold]
    by_cases ha : a ∈ order
    · rw [if_pos ha, if_pos (hperm.mem_iff.mp ha)]
    · rw [if_neg ha, if_neg (fun h => ha (hperm.mem_iff.mpr h))]

/-- Witness for C17: the four vertices of `two_triangles` visited in the order
3, 1, 0, 2. -/
theorem vertex_pass_order_independent_witness :
    [3, 1, 0, 2].foldl
        (fun pm v => Function.update pm v
          (Planarity.compute_k_ring_planarity count_fit two_triangles v 1))
        (add_property_map two_triangles.v_planarity (-9999))
      = Planarity.vertex_pass count_fit two_triangles 1 :=
  (vertex_pass_order_independent count_fit two_triangles 1 [3, 1, 0, 2] (by decide)).2.2.2

theorem binary_clear (mesh : Mesh) (edges : List Plane_intersection) (n : Nat) (x : Nat → ℚ)
    (hx : is_binary_assignment n x) :
    is_binary_assignment n (clear_second_block mesh edges x) := by
  intro i hi
  unfold clear_second_block
  split
  · left
    rfl
  · exact hx i hi

/-! ## Claims on the second auxiliary block and the index ranges -/

/-- C18. In the program built by `optimize` (fan faces being faces of the mesh),
every edge position has its complexity coefficient on a variable of
`[num_faces + num_edges, num_faces + 2 * num_edges)`, every constraint only uses
indices below `num_faces + num_edges`, so no variable carrying a complexity
coefficient occurs in a constraint. Consequently, setting those variables to 0
in a feasible assignment keeps it feasible, makes the complexity term 0 and,
when they were non-negative, does not increase the objective; and at an optimum
over the binary feasible assignments the complexity term is 0. -/
theorem complexity_block_unconstrained (mesh : Mesh) (edges : List Plane_intersection)
    (hfaces : ∀ e ∈ edges, ∀ f ∈ e.fan, f ∈ mesh.faces) :
    (∀ t, t < edges.length →
        mesh.number_of_faces + edges.length + t
            ∈ keys (optimize_program mesh edges).objective.coefficients
          ∧ coefficient (optimize_program mesh edges).objective.coefficients
              (mesh.number_of_faces + edges.length + t) = coeff_complexity edges
          ∧ ∀ c ∈ (optimize_program mesh edges).constraints,
              mesh.number_of_faces + edges.length + t ∉ keys c.coefficients)
      ∧ (∀ c ∈ (optimize_program mesh edges).constraints, ∀ j ∈ keys c.coefficients,
          j < mesh.number_of_faces + edges.length)
      ∧ (∀ x, (optimize_program mesh edges).feasible x →
          (optimize_program mesh edges).feasible (clear_second_block mesh edges x)
            ∧ complexity_term mesh edges (clear_second_block mesh edges x) = 0
            ∧ ((∀ t, t < edges.length →
                  0 ≤ x (mesh.number_of_faces + edges.length + t)) →
                evaluate (optimize_program mesh edges).objective.coefficients
                    (clear_second_block mesh edges x)
                  ≤ evaluate (optimize_program mesh edges).objective.coefficients x))
      ∧ ∀ x, is_binary_assignment (optimize_program mesh edges).variables_.length x →
          (optimize_program mesh edges).feasible x →
          (∀ y, is_binary_assignment (optimize_program mesh edges).variables_.length y →
            (optimize_program mesh edges).feasible y →
            evaluate (optimize_program mesh edges).objective.coefficients x
              ≤ evaluate (optimize_program mesh edges).objective.coefficients y) →
          complexity_term mesh edges x = 0 := by
  have hdrop : ∀ x, evaluate (optimize_program mesh edges).objective.coefficients
      (clear_second_block mesh edges x)
        = evaluate (optimize_program mesh edges).objective.coefficients x
          - complexity_term mesh edges x := by
    intro x
    rw [evaluate_objective_split, evaluate_objective_split, evaluate_faces_clear,
      complexity_term_clear]
    ring
  refine ⟨?_, keys_constraint_lt mesh edges hfaces, ?_, ?_⟩
  · intro t ht
    refine ⟨?_, ?_, ?_⟩
    · rw [keys_optimize_objective]
      right
      omega
    · rw [optimize_objective_coefficient, if_pos (by omega),
        objective_faces_coefficient_other mesh _ (by omega)]
      simp
    · intro c hc hmem
      have := keys_constraint_lt mesh edges hfaces c hc _ hmem
      omega
  · intro x hx
    refine ⟨feasible_clear mesh edges hfaces x hx, complexity_term_clear mesh edges x, ?_⟩
    intro hnn
    have := complexity_term_nonneg mesh edges x hnn
    rw [hdrop]
    linarith
  · intro x hbin hx hopt
    have hnn : ∀ t, t < edges.length →
        0 ≤ x (mesh.number_of_faces + edges.length + t) := by
      intro t ht
      have hlt : mesh.number_of_faces + edges.length + t
          < (optimize_program mesh edges).variables_.length := by
        rw [optimize_program_variables_length]
        unfold total_variables
        omega
      rcases hbin _ hlt with h0 | h1
      · rw [h0]
      · rw [h1]
        norm_num
    have h1 := complexity_term_nonneg mesh edges x hnn
    have h2 := hopt (clear_second_block mesh edges x) (binary_clear mesh edges _ x hbin)
      (feasible_clear mesh edges hfaces x hx)
    rw [hdrop] at h2
    linarith

/-- Witness for C18: on `two_triangles` with one shared edge the all-ones
assignment is feasible; clearing variable 3 keeps it feasible and lowers the
objective. -/
theorem complexity_block_unconstrained_witness :
    (optimize_program two_triangles one_shared_edge).feasible
        (clear_second_block two_triangles one_shared_edge select_all)
      ∧ evaluate (optimize_program two_triangles one_shared_edge).objective.coefficients
            (clear_second_block two_triangles one_shared_edge select_all)
          ≤ evaluate (optimize_program two_triangles one_shared_edge).objective.coefficients
            select_all := by
  have hfeas : (optimize_program two_triangles one_shared_edge).feasible select_all := by
    intro c hc
    simp only [optimize_program, one_shared_edge, edge_constraints, List.mem_singleton] at hc
    subst hc
    simp only [LinearConstraint.satisfied, edge_constraint_bounds, edge_constraint_evaluate]
    simp [select_all]
    norm_num
  have h := (complexity_block_unconstrained two_triangles one_shared_edge
    (by decide)).2.2.1 select_all hfeas
  exact ⟨h.1, h.2.2 (fun _ _ => by simp [select_all])⟩

/-- C19. Every variable index that `optimize` passes to the objective or to a
constraint is in bounds: given that every fan face is a face of the mesh, each
such index is smaller than `total_variables = num_faces + 2 * num_edges`, and
each face index written to `f:index` is smaller than `num_faces`. -/
theorem optimize_indices_in_bounds (mesh : Mesh) (edges : List Plane_intersection)
    (hfaces : ∀ e ∈ edges, ∀ f ∈ e.fan, f ∈ mesh.faces) :
    total_variables mesh edges = mesh.number_of_faces + 2 * edges.length
      ∧ (optimize_program mesh edges).variables_.length = total_variables mesh edges
      ∧ (∀ j ∈ keys (optimize_program mesh edges).objective.coefficients,
          j < total_variables mesh edges)
      ∧ (∀ c ∈ (optimize_program mesh edges).constraints, ∀ j ∈ keys c.coefficients,
          j < total_variables mesh edges)
      ∧ ∀ f ∈ mesh.faces, face_indices mesh f < mesh.number_of_faces := by
  refine ⟨?_, optimize_program_variables_length mesh edges, ?_, ?_,
    fun f hf => face_indices_lt mesh f hf⟩
  · unfold total_variables
    omega
  · intro j hj
    unfold total_variables
    rcases (keys_optimize_objective mesh edges j).mp hj with h | h
    · have := keys_objective_faces_lt mesh j h
      omega
    · omega
  · intro c hc j hj
    have := keys_constraint_lt mesh edges hfaces c hc j hj
    unfold total_variables
    omega

/-- Witness for C19: `two_triangles` with a shared and a dangling edge. -/
theorem optimize_indices_in_bounds_witness :
    (∀ j ∈ keys (optimize_program two_triangles shared_then_dangling).objective.coefficients,
        j < 6)
      ∧ ∀ c ∈ (optimize_program two_triangles shared_then_dangling).constraints,
          ∀ j ∈ keys c.coefficients, j < 6 :=
  ⟨(optimize_indices_in_bounds two_triangles shared_then_dangling (by decide)).2.2.1,
    (optimize_indices_in_bounds two_triangles shared_then_dangling (by decide)).2.2.2.1⟩

/-- C20. The auxiliary "used" variables of the constraints (fan faces being
faces of the mesh) are assigned injectively and densely: listed in edge order
they are exactly `num_faces, ..., num_faces + q - 1` for the `q` edges with at
least two fan faces, the constraint of such an edge at position `i` has the one
auxiliary variable `num_faces + (number of such edges before i)`, two such
edges at different positions have different auxiliary variables, and every
face variable index is below `num_faces`, hence none of them. -/
theorem auxiliary_variables_dense (mesh : Mesh) (edges : List Plane_intersection)
    (hfaces : ∀ e ∈ edges, ∀ f ∈ e.fan, f ∈ mesh.faces) :
    auxiliary_variables mesh.number_of_faces (optimize_program mesh edges).constraints
        = (List.range (num_qualifying edges)).map (fun t => mesh.number_of_faces + t)
      ∧ (∀ (i : Nat) (hi : i < edges.length), 2 ≤ (edges.get ⟨i, hi⟩).fan.length →
          ∃ c, (optimize_program mesh edges).constraints[i]? = some c
            ∧ (keys c.coefficients).filter (fun j => decide (mesh.number_of_faces ≤ j))
                = [mesh.number_of_faces + num_qualifying (edges.take i)]
            ∧ num_qualifying (edges.take i) < num_qualifying edges)
      ∧ (∀ (i j : Nat) (hi : i < edges.length) (hj : j < edges.length),
          2 ≤ (edges.get ⟨i, hi⟩).fan.length → 2 ≤ (edges.get ⟨j, hj⟩).fan.length → i < j →
          mesh.number_of_faces + num_qualifying (edges.take i)
            < mesh.number_of_faces + num_qualifying (edges.take j))
      ∧ ∀ f ∈ mesh.faces, face_indices mesh f < mesh.number_of_faces := by
  have hfi : ∀ e ∈ edges, ∀ f ∈ e.fan, face_indices mesh f < mesh.number_of_faces :=
    fun e he f hf => face_indices_lt mesh f (hfaces e he f hf)
  refine ⟨?_, ?_, ?_, fun f hf => face_indices_lt mesh f hf⟩
  · have h := auxiliary_of_edge_constraints mesh.number_of_faces (face_indices mesh) edges 0 hfi
    simpa [optimize_program] using h
  · intro i hi hq
    have hget := edge_constraints_getElem? mesh.number_of_faces (face_indices mesh) edges 0 i
    rw [List.getElem?_eq_getElem hi] at hget
    have haux := auxiliary_of_edge_constraint mesh.number_of_faces (face_indices mesh)
      (edges.get ⟨i, hi⟩) (0 + num_qualifying (edges.take i))
      (hfi _ (List.get_mem edges i hi))
    rw [if_pos hq, Nat.zero_add] at haux
    refine ⟨_, hget, ?_, ?_⟩
    · simpa using haux
    · have h1 := num_qualifying_take_succ edges i hi hq
      have h2 := num_qualifying_take_mono edges (i + 1) edges.length (by omega)
      rw [List.take_length] at h2
      omega
  · intro i j hi hj hqi _ hij
    have h1 := num_qualifying_take_succ edges i hi hqi
    have h2 := num_qualifying_take_mono edges (i + 1) j (by omega)
    omega

/-- Witness for C20: in `dangling_then_shared` the only auxiliary variable is
variable 2, used by the edge at position 1. -/
theorem auxiliary_variables_dense_witness :
    auxiliary_variables two_triangles.number_of_faces
        (optimize_program two_triangles dangling_then_shared).constraints = [2]
      ∧ ∃ c, (optimize_program two_triangles dangling_then_shared).constraints[1]? = some c
          ∧ (keys c.coefficients).filter
              (fun j => decide (two_triangles.number_of_faces ≤ j)) = [2] := by
  have h := auxiliary_variables_dense two_triangles dangling_then_shared (by decide)
  refine ⟨h.1.trans rfl, ?_⟩
  obtain ⟨c, hc, haux, _⟩ := h.2.1 1 (by decide) (by decide)
  exact ⟨c, hc, haux.trans rfl⟩

/-! ## Lemmas on the face score -/

theorem to_unsigned_eq_iff (c : Int) (id : Nat) (hc : -2 ^ 31 ≤ c ∧ c < 2 ^ 31)
    (hid : id < 2 ^ 31) : to_unsigned c = id ↔ c = (id : Int) := by
  unfold to_unsigned
  omega

theorem to_unsigned_minus_one (id : Nat) : to_unsigned (-1) = id ↔ id = 2 ^ 32 - 1 := by
  unfold to_unsigned
  omega

theorem to_unsigned_modular (c : Int) (id : Nat) (hid : id < 2 ^ 32) :
    to_unsigned c = id ↔ (c - (id : Int)) % 2 ^ 32 = 0 := by
  unfold to_unsigned
  omega

/-- C22. `select_segment(mesh, id)` compares the signed 32-bit chart value with
the unsigned 32-bit `id` modulo 2^32: a face is returned exactly when it is a
face of the mesh whose chart is congruent to `id` modulo 2^32; for every
`id < 2^31` these are exactly the faces whose chart equals `id`; and a face
whose chart is the unset value -1 is returned for `id = 2^32 - 1` and for no
other id. -/
theorem select_segment_modular (mesh : Mesh)
    (hrange : ∀ f ∈ mesh.faces, -2 ^ 31 ≤ mesh.chart f ∧ mesh.chart f < 2 ^ 31) :
    (∀ (id : Nat) (f : Face), id < 2 ^ 32 →
        (f ∈ select_segment mesh id
          ↔ f ∈ mesh.faces ∧ (mesh.chart f - (id : Int)) % 2 ^ 32 = 0))
      ∧ (∀ (id : Nat) (f : Face), id < 2 ^ 31 →
          (f ∈ select_segment mesh id ↔ f ∈ mesh.faces ∧ mesh.chart f = (id : Int)))
      ∧ ∀ f ∈ mesh.faces, mesh.chart f = -1 →
          ∀ id : Nat, f ∈ select_segment mesh id ↔ id = 2 ^ 32 - 1 := by
  refine ⟨?_, ?_, ?_⟩
  · intro id f hid
    rw [mem_select_segment, to_unsigned_modular _ _ hid]
  · intro id f hid
    rw [mem_select_segment]
    constructor
    · rintro ⟨hf, hu⟩
      exact ⟨hf, (to_unsigned_eq_iff _ _ (hrange f hf) hid).mp hu⟩
    · rintro ⟨hf, hc⟩
      exact ⟨hf, (to_unsigned_eq_iff _ _ (hrange f hf) hid).mpr hc⟩
  · intro f hf hunset id
    rw [mem_select_segment, hunset, to_unsigned_minus_one]
    constructor
    · rintro ⟨_, h⟩
      exact h
    · intro h
      exact ⟨hf, h⟩

/-- Witness for C22: every face of `two_triangles` still has the unset chart
-1, so face 0 is returned for the id `2^32 - 1` and not for the id 0. -/
theorem select_segment_modular_witness :
    (0 : Face) ∈ select_segment two_triangles (2 ^ 32 - 1)
      ∧ (0 : Face) ∉ select_segment two_triangles 0 := by
  have hrange : ∀ f ∈ two_triangles.faces,
      -2 ^ 31 ≤ two_triangles.chart f ∧ two_triangles.chart f < 2 ^ 31 := by
    intro f _
    have hc : two_triangles.chart f = -1 := rfl
    rw [hc]
    norm_num
  have h := (select_segment_modular two_triangles hrange).2.2 0 (by decide) rfl
  refine ⟨(h (2 ^ 32 - 1)).mpr rfl, ?_⟩
  intro h0
  have := (h 0).mp h0
  norm_num at this

/-! ## Lemmas on the border and the interior of a chart -/

theorem foldl_append_map {α β : Type} (g : α → β) (l : List α) (init : List β) :
    l.foldl (fun acc a => acc ++ [g a]) init = init ++ l.map g := by
  induction l generalizing init with
  | nil => simp
  | cons a t ih =>
    rw [List.foldl_cons, ih]
    simp

theorem foldl_append_filter {α β : Type} (p : α → Bool) (g : α → β) (l : List α)
    (init : List β) :
    l.foldl (fun acc a => if p a then acc ++ [g a] else acc) init
      = init ++ (l.filter p).map g := by
  induction l generalizing init with
  | nil => simp
  | cons a t ih =>
    rw [List.foldl_cons, ih]
    by_cases h : p a = true
    · simp [h, List.filter_cons]
    · simp [h, List.filter_cons]

theorem foldl_nested_append_filter {α β γ : Type} (hs : γ → List α) (p : α → Bool)
    (g : α → β) (faces : List γ) (init : List β) :
    faces.foldl
        (fun acc face =>
          (hs face).foldl (fun acc a => if p a then acc ++ [g a] else acc) acc)
        init
      = init ++ ((faces.flatMap hs).filter p).map g := by
  induction faces generalizing init with
  | nil => simp
  | cons f t ih =>
    rw [List.foldl_cons, ih, foldl_append_filter]
    simp [List.flatMap_cons, List.filter_append]

theorem foldl_nested_append_map {α β γ : Type} (hs : γ → List α) (g : α → β)
    (faces : List γ) (init : List β) :
    faces.foldl (fun acc face => (hs face).foldl (fun acc a => acc ++ [g a]) acc) init
      = init ++ (faces.flatMap hs).map g := by
  induction faces generalizing init with
  | nil => simp
  | cons f t ih =>
    rw [List.foldl_cons, ih, foldl_append_map]
    simp [List.flatMap_cons]

theorem get_segment_border_eq (mesh : Mesh) (id : Nat) :
    get_segment_border mesh id = (border_halfedges mesh id).map (halfedge_segment mesh) := by
  unfold get_segment_border border_halfedges segment_halfedges
  rw [foldl_nested_append_filter]
  simp

theorem get_segment_edges_eq (mesh : Mesh) (id : Nat) :
    get_segment_edges mesh id = (segment_halfedges mesh id).map (halfedge_segment mesh) := by
  unfold get_segment_edges segment_halfedges
  rw [foldl_nested_append_map]
  simp

theorem get_interior_points_eq (mesh : Mesh) (id : Nat) :
    get_interior_points mesh id = (interior_vertices mesh id).map mesh.points := by
  unfold get_interior_points interior_vertices
  simp only []
  rw [foldl_append_filter]
  simp

theorem mem_segment_halfedges (mesh : Mesh) (id : Nat) (h : Halfedge) :
    h ∈ segment_halfedges mesh id
      ↔ ∃ f ∈ select_segment mesh id, h ∈ mesh.halfedges_around_face (mesh.halfedge f) := by
  unfold segment_halfedges
  simp [List.mem_flatMap]

theorem across_other_chart_iff (mesh : Mesh) (id : Nat) (h : Halfedge) :
    across_other_chart mesh id h = true
      ↔ ∃ opp, mesh.face (mesh.opposite h) = some opp ∧ to_unsigned (mesh.chart opp) ≠ id := by
  unfold across_other_chart
  cases hface : mesh.face (mesh.opposite h) with
  | none => simp
  | some opp => simp

theorem mem_foldl_set_insert (l : List Face) (acc : List Face) (a : Face) :
    a ∈ l.foldl set_insert acc ↔ a ∈ acc ∨ a ∈ l := by
  induction l generalizing acc with
  | nil => simp
  | cons b t ih =>
    rw [List.foldl_cons, ih, mem_set_insert]
    simp only [List.mem_cons]
    tauto

theorem mem_segment_vertices_fold (mesh : Mesh) (l : List Face) (acc : List Vertex)
    (v : Vertex) :
    v ∈ l.foldl
        (fun vertices face => (mesh.vertex_around_face face).foldl set_insert vertices) acc
      ↔ v ∈ acc ∨ ∃ f ∈ l, v ∈ mesh.vertex_around_face f := by
  induction l generalizing acc with
  | nil => simp
  | cons b t ih =>
    rw [List.foldl_cons, ih, mem_foldl_set_insert]
    simp only [List.mem_cons, exists_eq_or_imp]
    tauto

theorem mem_get_segment_vertices (mesh : Mesh) (id : Nat) (v : Vertex) :
    v ∈ get_segment_vertices mesh id
      ↔ ∃ f ∈ select_segment mesh id, v ∈ mesh.vertex_around_face f := by
  unfold get_segment_vertices
  rw [mem_segment_vertices_fold]
  simp

theorem mem_border_halfedges (mesh : Mesh) (id : Nat) (h : Halfedge) :
    h ∈ border_halfedges mesh id
      ↔ (∃ f ∈ select_segment mesh id, h ∈ mesh.halfedges_around_face (mesh.halfedge f))
        ∧ ∃ opp, mesh.face (mesh.opposite h) = some opp
            ∧ to_unsigned (mesh.chart opp) ≠ id := by
  unfold border_halfedges
  rw [List.mem_filter, mem_segment_halfedges, across_other_chart_iff]

theorem mem_interior_vertices (mesh : Mesh) (id : Nat) (v : Vertex) :
    v ∈ interior_vertices mesh id
      ↔ v ∈ get_segment_vertices mesh id
        ∧ ∀ g ∈ mesh.face_around_vertex v, to_unsigned (mesh.chart g) = id := by
  unfold interior_vertices
  rw [List.mem_filter, List.all_eq_true]
  simp only [decide_eq_true_eq]

/-! ## Claims on the border and the interior of a chart -/

/-- C23. `get_segment_border(mesh, id)` returns one segment per halfedge `h`
visited around a face of chart `id` for which the face across `h` (the face of
`opposite(h)`) exists and has a chart that compares different from `id`, and
nothing else: halfedges on the mesh boundary and halfedges whose face across
is of chart `id` are never reported, and every reported segment is also in
`get_segment_edges(mesh, id)`. For a signed 32-bit chart and `id < 2^31` the
comparison is plain inequality. -/
theorem segment_border_halfedges (mesh : Mesh) (id : Nat) :
    get_segment_border mesh id = (border_halfedges mesh id).map (halfedge_segment mesh)
      ∧ (∀ h, h ∈ border_halfedges mesh id
          ↔ (∃ f ∈ select_segment mesh id,
                h ∈ mesh.halfedges_around_face (mesh.halfedge f))
            ∧ ∃ opp, mesh.face (mesh.opposite h) = some opp
                ∧ to_unsigned (mesh.chart opp) ≠ id)
      ∧ (∀ h, mesh.face (mesh.opposite h) = none → h ∉ border_halfedges mesh id)
      ∧ (∀ h opp, mesh.face (mesh.opposite h) = some opp →
          to_unsigned (mesh.chart opp) = id → h ∉ border_halfedges mesh id)
      ∧ (∀ s ∈ get_segment_border mesh id, s ∈ get_segment_edges mesh id)
      ∧ ∀ opp : Face, -2 ^ 31 ≤ mesh.chart opp ∧ mesh.chart opp < 2 ^ 31 → id < 2 ^ 31 →
          (to_unsigned (mesh.chart opp) ≠ id ↔ mesh.chart opp ≠ (id : Int)) := by
  refine ⟨get_segment_border_eq mesh id, mem_border_halfedges mesh id, ?_, ?_, ?_, ?_⟩
  · intro h hnone hmem
    obtain ⟨_, opp, hopp, _⟩ := (mem_border_halfedges mesh id h).mp hmem
    rw [hnone] at hopp
    exact Option.noConfusion hopp
  · intro h opp hsome hsame hmem
    obtain ⟨_, opp2, hopp, hdiff⟩ := (mem_border_halfedges mesh id h).mp hmem
    rw [hsome] at hopp
    have heq : opp = opp2 := Option.some.inj hopp
    rw [← heq] at hdiff
    exact hdiff hsame
  · intro s hs
    rw [get_segment_border_eq, List.mem_map] at hs
    obtain ⟨h, hh, hseg⟩ := hs
    rw [get_segment_edges_eq, List.mem_map]
    unfold border_halfedges at hh
    exact ⟨h, (List.mem_filter.mp hh).1, hseg⟩
  · intro opp hrange hid
    rw [Ne, Ne, to_unsigned_eq_iff _ _ hrange hid]

/-- Witness for C23: in `connected_charts` the border of chart 0 is the one
halfedge 2, from vertex 2 to vertex 0, shared with face 1 of chart 1. -/
theorem segment_border_halfedges_witness :
    border_halfedges connected_charts 0 = [2]
      ∧ get_segment_border connected_charts 0 = [halfedge_segment connected_charts 2] := by
  have hb : border_halfedges connected_charts 0 = [2] := by decide
  have h := (segment_border_halfedges connected_charts 0).1
  rw [hb] at h
  exact ⟨hb, h⟩

/-- C24. Interior and border of a chart are disjoint at vertex level: when the
two ends of a halfedge are swapped by `opposite` and `face_around_vertex` lists,
for each end of a halfedge, the face of that halfedge, no vertex whose point
`get_interior_points(mesh, id)` returns is the source or the target of a
halfedge reported by `get_segment_border(mesh, id)`, and every such interior
vertex belongs to `get_segment_vertices(mesh, id)`. -/
theorem interior_border_disjoint (mesh : Mesh) (id : Nat)
    (hopposite : ∀ h, mesh.source (mesh.opposite h) = mesh.target h
      ∧ mesh.target (mesh.opposite h) = mesh.source h)
    (hincident : ∀ h g, mesh.face h = some g →
      g ∈ mesh.face_around_vertex (mesh.source h)
        ∧ g ∈ mesh.face_around_vertex (mesh.target h)) :
    get_interior_points mesh id = (interior_vertices mesh id).map mesh.points
      ∧ get_segment_border mesh id = (border_halfedges mesh id).map (halfedge_segment mesh)
      ∧ (∀ v ∈ interior_vertices mesh id, v ∈ get_segment_vertices mesh id)
      ∧ ∀ v ∈ interior_vertices mesh id, ∀ h ∈ border_halfedges mesh id,
          v ≠ mesh.source h ∧ v ≠ mesh.target h := by
  refine ⟨get_interior_points_eq mesh id, get_segment_border_eq mesh id, ?_, ?_⟩
  · intro v hv
    exact ((mem_interior_vertices mesh id v).mp hv).1
  · intro v hv h hh
    have hall := ((mem_interior_vertices mesh id v).mp hv).2
    obtain ⟨_, opp, hface, hdiff⟩ := (mem_border_halfedges mesh id h).mp hh
    have hinc := hincident (mesh.opposite h) opp hface
    rw [(hopposite h).1, (hopposite h).2] at hinc
    constructor
    · intro hvs
      rw [← hvs] at hinc
      exact hdiff (hall opp hinc.2)
    · intro hvt
      rw [← hvt] at hinc
      exact hdiff (hall opp hinc.1)

theorem connected_charts_opposite (h : Halfedge) :
    connected_charts.source (connected_charts.opposite h) = connected_charts.target h
      ∧ connected_charts.target (connected_charts.opposite h) = connected_charts.source h := by
  rcases Nat.lt_or_ge h 10 with hlt | hge
  · interval_cases h <;> exact ⟨rfl, rfl⟩
  · obtain ⟨n, rfl⟩ : ∃ n, h = n + 10 := ⟨h - 10, (Nat.sub_add_cancel hge).symm⟩
    exact ⟨rfl, rfl⟩

theorem connected_charts_incident (h : Halfedge) (g : Face)
    (hg : connected_charts.face h = some g) :
    g ∈ connected_charts.face_around_vertex (connected_charts.source h)
      ∧ g ∈ connected_charts.face_around_vertex (connected_charts.target h) := by
  rcases Nat.lt_or_ge h 6 with hlt | hge
  · interval_cases h <;>
      · have hg2 : some _ = some g := hg
        have hg3 := Option.some.inj hg2
        subst hg3
        decide
  · obtain ⟨n, rfl⟩ : ∃ n, h = n + 6 := ⟨h - 6, (Nat.sub_add_cancel hge).symm⟩
    have hnone : connected_charts.face (n + 6) = none := rfl
    rw [hnone] at hg
    exact Option.noConfusion hg

/-- Witness for C24: in `connected_charts` the only interior vertex of chart 0
is vertex 1, and it is no end of the border halfedge 2. -/
theorem interior_border_disjoint_witness :
    interior_vertices connected_charts 0 = [1]
      ∧ get_interior_points connected_charts 0 = [connected_charts.points 1]
      ∧ ∀ v ∈ interior_vertices connected_charts 0, ∀ h ∈ border_halfedges connected_charts 0,
          v ≠ connected_charts.source h ∧ v ≠ connected_charts.target h := by
  have hi : interior_vertices connected_charts 0 = [1] := by decide
  have h := interior_border_disjoint connected_charts 0 connected_charts_opposite
    connected_charts_incident
  have hp := h.1
  rw [hi] at hp
  exact ⟨hi, hp, h.2.2.2⟩

/-! ## Lemmas on binary64 rounding -/

end MeshPolygonization
